import Mathlib

/-
Verification of the SatTrack multi-source canonicalization and graph
construction pipeline.

The definitions below are a shallow embedding of the Python sources:
  * `update_canonical`, `create_satellite_document` ........ src/db.py
  * `promote_kaggle_orbital` ..... src/promote_kaggle_orbital.py
  * `populate_orbital_proximity` . src/populate_orbital_proximity.py
  * `populate_constellation_network` src/populate_constellation_network.py
  * `populate_registration_network`  src/populate_registration_network.py
  * graph read endpoints ......... src/api.py

Modelling conventions:
  * Python/JSON scalars are a `Value` inductive; Python `None` (JSON null)
    is `Value.null`; numbers are exact rationals.
  * Python dicts (insertion ordered) are association lists
    `List (String × _)`; `dict.get` is `alookup`.
  * Timestamps (`updated_at`, `created_at`, ...) are bookkeeping noise and
    are dropped from the embedding; no claim mentions them.
-/

namespace SatTrack

/-- A JSON-like scalar value as stored in a source record. -/
inductive Value where
  | null : Value
  | str : String → Value
  | num : ℚ → Value
  | boolean : Bool → Value
deriving DecidableEq, Repr

/-- First-match association-list lookup, the model of Python `dict.get`. -/
def alookup {α : Type} (k : String) : List (String × α) → Option α
  | [] => none
  | (k', v) :: rest => if k' = k then some v else alookup k rest

/-- Keys of an association list, in insertion order. -/
def keysOf {α : Type} (l : List (String × α)) : List String :=
  l.map Prod.fst

/-- One source's normalized field mapping. -/
abbrev Src := List (String × Value)

/-- The per-object `sources` mapping: source name to that source's fields. -/
abbrev Sources := List (String × Src)

/-- Default source priority, from `db.update_canonical` / `create_satellite_document`. -/
def defaultPriority : List String :=
  ["unoosa", "celestrak", "tleapi", "kaggle"]

/-- `db.update_canonical` line 239: the explicit priority list restricted to
sources actually present, then all remaining source names in encounter order. -/
def effectivePriority (priority : List String) (sources : Sources) : List String :=
  priority.filter (fun s => (alookup s sources).isSome)
    ++ (keysOf sources).filter (fun s => !priority.contains s)

/-- The scalar-field scan body: `sources[source_name].get(field)` accepted when
it `is not None and != ""` (db.py lines 253-258). -/
def scalarValue (sources : Sources) (f : String) (s : String) : Option Value :=
  match alookup s sources with
  | none => none
  | some d =>
    match alookup f d with
    | none => none
    | some v => if v ≠ Value.null ∧ v ≠ Value.str "" then some v else none

/-- The orbit/tle-field scan body: accepted when the value `is not None`
(db.py lines 262-279); the empty string is NOT rejected here. -/
def orbitValue (sources : Sources) (f : String) (s : String) : Option Value :=
  match alookup s sources with
  | none => none
  | some d =>
    match alookup f d with
    | none => none
    | some v => if v ≠ Value.null then some v else none

/-- The fixed scalar field list of `db.update_canonical`. -/
def canonicalFields : List String :=
  ["name", "object_name", "country_of_origin", "international_designator",
   "registration_number", "norad_cat_id", "date_of_launch", "function", "status",
   "registration_document", "un_registered", "gso_location",
   "date_of_decay_or_change", "secretariat_remarks", "external_website",
   "launch_vehicle", "place_of_launch", "object_type", "rcs", "orbital_band",
   "congestion_risk"]

/-- The nested orbit field list of `db.update_canonical`. -/
def orbitalFields : List String :=
  ["apogee_km", "perigee_km", "inclination_degrees", "period_minutes"]

/-- The TLE field list of `db.update_canonical`. -/
def tleFields : List String :=
  ["tle_line1", "tle_line2"]

/-- db.py line 277: `"line1" if field == "tle_line1" else "line2"`. -/
def tleRename (f : String) : String :=
  if f = "tle_line1" then "line1" else "line2"

/-- The canonical view produced by the resolver: assigned scalar fields, the
nested `orbit` object, the nested `tle` object, and the effective priority
recorded at `canonical["source_priority"]`.  The `updated_at` timestamp is
dropped. -/
structure Canonical where
  scalars : List (String × Value)
  orbit : List (String × Value)
  tle : List (String × Value)
  source_priority : List String
deriving DecidableEq, Repr

/-- `db.update_canonical` (db.py lines 231-284): for each field, scan the
effective priority order and keep the first acceptable value. -/
def update_canonical (priority : List String) (sources : Sources) : Canonical :=
  let prio := effectivePriority priority sources
  { scalars := canonicalFields.filterMap
      (fun f => (prio.findSome? (scalarValue sources f)).map (fun v => (f, v)))
  , orbit := orbitalFields.filterMap
      (fun f => (prio.findSome? (orbitValue sources f)).map (fun v => (f, v)))
  , tle := tleFields.filterMap
      (fun f => (prio.findSome? (orbitValue sources f)).map (fun v => (tleRename f, v)))
  , source_priority := prio }

/-! ### Basic lemmas about `alookup` -/

theorem alookup_eq_none_iff {α : Type} (k : String) (l : List (String × α)) :
    alookup k l = none ↔ k ∉ keysOf l := by
  induction l with
  | nil => simp [alookup, keysOf]
  | cons p rest ih =>
    obtain ⟨k', v⟩ := p
    by_cases h : k' = k
    · subst h
      simp [alookup, keysOf]
    · simp [alookup, h, keysOf, ih]
      intro hk
      exact fun hkk => h hkk.symm

theorem alookup_mem {α : Type} {k : String} {l : List (String × α)} {v : α}
    (h : alookup k l = some v) : (k, v) ∈ l := by
  induction l with
  | nil => simp [alookup] at h
  | cons p rest ih =>
    obtain ⟨k', v'⟩ := p
    by_cases hk : k' = k
    · subst hk
      simp [alookup] at h
      simp [h]
    · simp [alookup, hk] at h
      exact List.mem_cons_of_mem _ (ih h)

theorem alookup_of_perm {α : Type} {l l' : List (String × α)}
    (hperm : l.Perm l') (hnodup : (keysOf l).Nodup) (k : String) :
    alookup k l = alookup k l' := by
  induction hperm with
  | nil => rfl
  | cons p _ ih =>
    obtain ⟨k', v⟩ := p
    simp only [keysOf, List.map_cons, List.nodup_cons] at hnodup
    by_cases h : k' = k
    · subst h
      simp [alookup]
    · simp [alookup, h]
      exact ih hnodup.2
  | swap p q l =>
    obtain ⟨kp, vp⟩ := p
    obtain ⟨kq, vq⟩ := q
    simp only [keysOf, List.map_cons, List.nodup_cons, List.mem_cons] at hnodup
    by_cases hp : kp = k
    · subst hp
      by_cases hq : kq = kp
      · exact absurd hq.symm (fun h => hnodup.1 (Or.inl h.symm))
      · simp [alookup, hq]
    · by_cases hq : kq = k
      · subst hq
        simp [alookup, hp]
      · simp [alookup, hp, hq]
  | trans h12 _h23 ih1 ih2 =>
    exact (ih1 hnodup).trans (ih2 ((h12.map Prod.fst).nodup hnodup))

theorem keysOf_perm {α : Type} {l l' : List (String × α)} (h : l.Perm l') :
    (keysOf l).Perm (keysOf l') := h.map Prod.fst

/-! ### Lookup in the resolver output -/

theorem alookup_filterMap_fields {fields : List String} (g : String → Option Value)
    (hnd : fields.Nodup) {f : String} (hf : f ∈ fields) :
    alookup f (fields.filterMap (fun x => (g x).map (fun v => (x, v)))) = g f := by
  induction fields with
  | nil => simp at hf
  | cons x rest ih =>
    simp only [List.nodup_cons] at hnd
    rcases List.mem_cons.mp hf with hfx | hfr
    · subst hfx
      cases hgf : g f with
      | none =>
        simp only [List.filterMap_cons, hgf, Option.map_none']
        rw [alookup_eq_none_iff]
        intro hmem
        have : f ∈ rest := by
          simp only [keysOf, List.map_filterMap] at hmem
          rcases List.mem_filterMap.mp hmem with ⟨y, hy, hyy⟩
          cases hgy : g y <;> simp [hgy] at hyy
          exact hyy ▸ hy
        exact hnd.1 this
      | some v =>
        simp [List.filterMap_cons, hgf, alookup]
    · have hfx : x ≠ f := fun h => hnd.1 (h ▸ hfr)
      cases hgx : g x with
      | none => simp only [List.filterMap_cons, hgx, Option.map_none']
                exact ih hnd.2 hfr
      | some v =>
        simp only [List.filterMap_cons, hgx, Option.map_some']
        rw [alookup]
        simp [hfx]
        exact ih hnd.2 hfr

/-- Characterization of the resolver's scalar output: for each field of the
fixed list, the assigned value is the first non-null, non-empty value found
scanning the effective priority order. -/
theorem update_canonical_scalars_eq (priority : List String) (sources : Sources)
    {f : String} (hf : f ∈ canonicalFields) :
    alookup f (update_canonical priority sources).scalars
      = (effectivePriority priority sources).findSome? (scalarValue sources f) := by
  have hnd : canonicalFields.Nodup := by decide
  exact alookup_filterMap_fields
    (fun x => (effectivePriority priority sources).findSome? (scalarValue sources x)) hnd hf

/-- Characterization of the resolver's orbit output. -/
theorem update_canonical_orbit_eq (priority : List String) (sources : Sources)
    {f : String} (hf : f ∈ orbitalFields) :
    alookup f (update_canonical priority sources).orbit
      = (effectivePriority priority sources).findSome? (orbitValue sources f) := by
  have hnd : orbitalFields.Nodup := by decide
  exact alookup_filterMap_fields
    (fun x => (effectivePriority priority sources).findSome? (orbitValue sources x)) hnd hf

/-! ### The priority scan -/

theorem findSome?_cons_none {α β : Type} {g : α → Option β} {x : α} (l : List α)
    (hx : g x = none) : (x :: l).findSome? g = l.findSome? g := by
  simp [List.findSome?_cons, hx]

theorem findSome?_cons_some {α β : Type} {g : α → Option β} {x : α} {v : β} (l : List α)
    (hx : g x = some v) : (x :: l).findSome? g = some v := by
  simp [List.findSome?_cons, hx]

/-- A scan takes the first hit: if everything before `a` yields nothing and
`a` yields `v`, the scan yields `v` and never looks past `a`. -/
theorem findSome?_first {α β : Type} (g : α → Option β)
    (l1 l2 : List α) (a : α) (v : β)
    (h1 : ∀ x ∈ l1, g x = none) (ha : g a = some v) :
    (l1 ++ a :: l2).findSome? g = some v := by
  induction l1 with
  | nil => simpa using findSome?_cons_some l2 ha
  | cons x rest ih =>
    rw [List.cons_append, findSome?_cons_none _ (h1 x (List.mem_cons_self x rest))]
    exact ih fun y hy => h1 y (List.mem_cons_of_mem _ hy)

/-- If a source strictly higher in the default priority list than `s2` holds a
non-null, non-empty value for `f`, and every source other than `s1`, `s2`
holds no acceptable value for `f`, the scalar scan returns `s1`'s value. -/
theorem scalar_scan_two_sources (sources : Sources)
    (f s1 s2 : String) (P1 P2 : List String)
    (hsplit : defaultPriority = P1 ++ s1 :: P2) (hs2 : s2 ∈ P2)
    (d1 : Src) (h1 : alookup s1 sources = some d1)
    (v1 : Value) (hv1 : alookup f d1 = some v1)
    (hne1 : v1 ≠ Value.null ∧ v1 ≠ Value.str "")
    (honly : ∀ s d, (s, d) ∈ sources → s ≠ s1 → s ≠ s2 →
        ∀ v, alookup f d = some v → v = Value.null ∨ v = Value.str "") :
    (effectivePriority defaultPriority sources).findSome? (scalarValue sources f)
      = some v1 := by
  have hnd : (P1 ++ s1 :: P2).Nodup := hsplit ▸ (by decide : defaultPriority.Nodup)
  rw [List.nodup_append] at hnd
  have hs1P1 : s1 ∉ P1 := fun h => hnd.2.2 h (List.mem_cons_self _ _)
  have hs2P1 : s2 ∉ P1 := fun h => hnd.2.2 h (List.mem_cons_of_mem _ hs2)
  have hpres : (alookup s1 sources).isSome = true := by simp [h1]
  have heq : effectivePriority defaultPriority sources
      = P1.filter (fun s => (alookup s sources).isSome)
        ++ s1 :: (P2.filter (fun s => (alookup s sources).isSome)
          ++ (keysOf sources).filter (fun s => !defaultPriority.contains s)) := by
    rw [effectivePriority, hsplit, List.filter_append, List.filter_cons]
    simp [hpres, List.append_assoc]
  rw [heq]
  apply findSome?_first
  · intro x hx
    have hxP1 : x ∈ P1 := List.mem_of_mem_filter hx
    have hxs1 : x ≠ s1 := fun h => hs1P1 (h ▸ hxP1)
    have hxs2 : x ≠ s2 := fun h => hs2P1 (h ▸ hxP1)
    cases hd : alookup x sources with
    | none => simp [scalarValue, hd]
    | some d =>
      cases hv : alookup f d with
      | none => simp [scalarValue, hd, hv]
      | some v =>
        rcases honly x d (alookup_mem hd) hxs1 hxs2 v hv with h | h <;>
          simp [scalarValue, hd, hv, h]
  · simp [scalarValue, h1, hv1, hne1.1, hne1.2]

/-- C1: for every canonical scalar field, the Resolver assigns the first
non-null, non-empty value found scanning sources in the effective priority
order (the default list `unoosa > celestrak > tleapi > kaggle` restricted to
present sources, with sources not in the explicit list appended in encounter
order); in particular, when a field is held (non-null, non-empty) by exactly
two sources of different explicit priority ranks, `canonical[field]` is the
higher-priority source's value, regardless of the insertion order of the
`sources` mapping. -/
theorem resolver_priority_first_nonempty_wins
    (sources sources' : Sources) (hperm : sources.Perm sources')
    (hkeys : (keysOf sources).Nodup)
    (f s1 s2 : String) (hf : f ∈ canonicalFields) (P1 P2 : List String)
    (hsplit : defaultPriority = P1 ++ s1 :: P2) (hs2 : s2 ∈ P2)
    (d1 d2 : Src) (h1 : alookup s1 sources = some d1) (_h2 : alookup s2 sources = some d2)
    (v1 v2 : Value) (hv1 : alookup f d1 = some v1)
    (hne1 : v1 ≠ Value.null ∧ v1 ≠ Value.str "")
    (_hv2 : alookup f d2 = some v2)
    (_hne2 : v2 ≠ Value.null ∧ v2 ≠ Value.str "")
    (honly : ∀ s d, (s, d) ∈ sources → s ≠ s1 → s ≠ s2 →
        ∀ v, alookup f d = some v → v = Value.null ∨ v = Value.str "") :
    (∀ g ∈ canonicalFields, alookup g (update_canonical defaultPriority sources).scalars
        = (effectivePriority defaultPriority sources).findSome? (scalarValue sources g))
    ∧ alookup f (update_canonical defaultPriority sources).scalars = some v1
    ∧ alookup f (update_canonical defaultPriority sources').scalars = some v1 := by
  refine ⟨fun g hg => update_canonical_scalars_eq _ _ hg, ?_, ?_⟩
  · rw [update_canonical_scalars_eq _ _ hf]
    exact scalar_scan_two_sources sources f s1 s2 P1 P2 hsplit hs2 d1 h1 v1 hv1 hne1 honly
  · rw [update_canonical_scalars_eq _ _ hf]
    have h1' : alookup s1 sources' = some d1 := by
      rw [← alookup_of_perm hperm hkeys]; exact h1
    have honly' : ∀ s d, (s, d) ∈ sources' → s ≠ s1 → s ≠ s2 →
        ∀ v, alookup f d = some v → v = Value.null ∨ v = Value.str "" :=
      fun s d hm hns1 hns2 v hv => honly s d (hperm.mem_iff.mpr hm) hns1 hns2 v hv
    exact scalar_scan_two_sources sources' f s1 s2 P1 P2 hsplit hs2 d1 h1' v1 hv1 hne1 honly'

/-- Witness for C1: `unoosa` supplies "France", `kaggle` supplies "USA";
whichever way the two sources are listed, the canonical country is "France". -/
theorem resolver_priority_first_nonempty_wins_witness :
    alookup "country_of_origin"
      (update_canonical defaultPriority
        [("kaggle", [("country_of_origin", Value.str "USA")]),
         ("unoosa", [("country_of_origin", Value.str "France")])]).scalars
      = some (Value.str "France")
    ∧ alookup "country_of_origin"
      (update_canonical defaultPriority
        [("unoosa", [("country_of_origin", Value.str "France")]),
         ("kaggle", [("country_of_origin", Value.str "USA")])]).scalars
      = some (Value.str "France") := by
  have h := resolver_priority_first_nonempty_wins
    [("kaggle", [("country_of_origin", Value.str "USA")]),
     ("unoosa", [("country_of_origin", Value.str "France")])]
    [("unoosa", [("country_of_origin", Value.str "France")]),
     ("kaggle", [("country_of_origin", Value.str "USA")])]
    (List.Perm.swap _ _ _)
    (by decide)
    "country_of_origin" "unoosa" "kaggle" (by decide)
    [] ["celestrak", "tleapi", "kaggle"] rfl (by decide)
    [("country_of_origin", Value.str "France")]
    [("country_of_origin", Value.str "USA")]
    (by decide) (by decide)
    (Value.str "France") (Value.str "USA")
    (by decide) (by decide) (by decide) (by decide)
    (by
      intro s d hmem hns1 hns2 v _
      rcases List.mem_cons.mp hmem with h | h
      · exact absurd (congrArg Prod.fst h) hns2
      · rcases List.mem_singleton.mp h with h'
        exact absurd (congrArg Prod.fst h') hns1)
  exact ⟨h.2.1, h.2.2⟩

/-! ### Orbit and TLE resolution -/

/-- Lookup of the two renamed TLE fields in the resolver output. -/
theorem update_canonical_tle_eq (priority : List String) (sources : Sources) :
    alookup "line1" (update_canonical priority sources).tle
      = (effectivePriority priority sources).findSome? (orbitValue sources "tle_line1")
    ∧ alookup "line2" (update_canonical priority sources).tle
      = (effectivePriority priority sources).findSome? (orbitValue sources "tle_line2") := by
  have h : (update_canonical priority sources).tle
      = tleFields.filterMap (fun f =>
          ((effectivePriority priority sources).findSome? (orbitValue sources f)).map
            (fun v => (tleRename f, v))) := rfl
  rw [h]
  cases h1 : (effectivePriority priority sources).findSome? (orbitValue sources "tle_line1") <;>
  cases h2 : (effectivePriority priority sources).findSome? (orbitValue sources "tle_line2") <;>
    simp only [tleFields, List.filterMap_cons, List.filterMap_nil, h1, h2,
      Option.map_none', Option.map_some', tleRename] <;>
    simp [alookup]

/-- Orbit-field analog of `scalar_scan_two_sources`: the acceptance test is
only non-nullness, so an empty string counts as a value. -/
theorem orbit_scan_two_sources (sources : Sources)
    (f s1 s2 : String) (P1 P2 : List String)
    (hsplit : defaultPriority = P1 ++ s1 :: P2) (hs2 : s2 ∈ P2)
    (d1 : Src) (h1 : alookup s1 sources = some d1)
    (v1 : Value) (hv1 : alookup f d1 = some v1) (hne1 : v1 ≠ Value.null)
    (honly : ∀ s d, (s, d) ∈ sources → s ≠ s1 → s ≠ s2 →
        ∀ v, alookup f d = some v → v = Value.null) :
    (effectivePriority defaultPriority sources).findSome? (orbitValue sources f)
      = some v1 := by
  have hnd : (P1 ++ s1 :: P2).Nodup := hsplit ▸ (by decide : defaultPriority.Nodup)
  rw [List.nodup_append] at hnd
  have hs1P1 : s1 ∉ P1 := fun h => hnd.2.2 h (List.mem_cons_self _ _)
  have hs2P1 : s2 ∉ P1 := fun h => hnd.2.2 h (List.mem_cons_of_mem _ hs2)
  have hpres : (alookup s1 sources).isSome = true := by simp [h1]
  have heq : effectivePriority defaultPriority sources
      = P1.filter (fun s => (alookup s sources).isSome)
        ++ s1 :: (P2.filter (fun s => (alookup s sources).isSome)
          ++ (keysOf sources).filter (fun s => !defaultPriority.contains s)) := by
    rw [effectivePriority, hsplit, List.filter_append, List.filter_cons]
    simp [hpres, List.append_assoc]
  rw [heq]
  apply findSome?_first
  · intro x hx
    have hxP1 : x ∈ P1 := List.mem_of_mem_filter hx
    have hxs1 : x ≠ s1 := fun h => hs1P1 (h ▸ hxP1)
    have hxs2 : x ≠ s2 := fun h => hs2P1 (h ▸ hxP1)
    cases hd : alookup x sources with
    | none => simp [orbitValue, hd]
    | some d =>
      cases hv : alookup f d with
      | none => simp [orbitValue, hd, hv]
      | some v =>
        have h := honly x d (alookup_mem hd) hxs1 hxs2 v hv
        simp [orbitValue, hd, hv, h]
  · simp [orbitValue, h1, hv1, hne1]

/-- Counterexample to C8: the orbit loop of `update_canonical` accepts any
non-null value, so the empty string supplied by the highest-priority source
is assigned instead of being skipped in favor of the next source's number. -/
theorem orbit_empty_string_taken_counterexample :
    alookup "apogee_km"
      (update_canonical defaultPriority
        [("unoosa", [("apogee_km", Value.str "")]),
         ("kaggle", [("apogee_km", Value.num 500)])]).orbit
      = some (Value.str "")
    ∧ alookup "apogee_km"
      (update_canonical defaultPriority
        [("unoosa", [("apogee_km", Value.str "")]),
         ("kaggle", [("apogee_km", Value.num 500)])]).orbit
      ≠ some (Value.num 500) := by
  constructor
  · rfl
  · decide

/-- C8 (amended): the nested orbit fields and the TLE fields are resolved by
the same priority scan as the scalar fields but taking the first non-null
value — an empty string in a higher-priority source is assigned, not skipped —
with `tle_line1`/`tle_line2` renamed to `line1`/`line2` in the `tle`
sub-object; when a field is held non-null by exactly two sources of different
explicit priority ranks, the higher-priority value (empty string included)
wins. -/
theorem orbit_tle_resolution_first_nonnull
    (sources : Sources)
    (f s1 s2 : String) (hf : f ∈ orbitalFields) (P1 P2 : List String)
    (hsplit : defaultPriority = P1 ++ s1 :: P2) (hs2 : s2 ∈ P2)
    (d1 d2 : Src) (h1 : alookup s1 sources = some d1) (_h2 : alookup s2 sources = some d2)
    (v1 v2 : Value) (hv1 : alookup f d1 = some v1) (hne1 : v1 ≠ Value.null)
    (_hv2 : alookup f d2 = some v2) (_hne2 : v2 ≠ Value.null)
    (honly : ∀ s d, (s, d) ∈ sources → s ≠ s1 → s ≠ s2 →
        ∀ v, alookup f d = some v → v = Value.null) :
    (∀ g ∈ orbitalFields, alookup g (update_canonical defaultPriority sources).orbit
        = (effectivePriority defaultPriority sources).findSome? (orbitValue sources g))
    ∧ alookup "line1" (update_canonical defaultPriority sources).tle
        = (effectivePriority defaultPriority sources).findSome? (orbitValue sources "tle_line1")
    ∧ alookup "line2" (update_canonical defaultPriority sources).tle
        = (effectivePriority defaultPriority sources).findSome? (orbitValue sources "tle_line2")
    ∧ alookup f (update_canonical defaultPriority sources).orbit = some v1 := by
  refine ⟨fun g hg => update_canonical_orbit_eq _ _ hg,
    (update_canonical_tle_eq _ _).1, (update_canonical_tle_eq _ _).2, ?_⟩
  rw [update_canonical_orbit_eq _ _ hf]
  exact orbit_scan_two_sources sources f s1 s2 P1 P2 hsplit hs2 d1 h1 v1 hv1 hne1 honly

/-- Witness for the amended C8, instantiated so that the winning
higher-priority value is the empty string itself. -/
theorem orbit_tle_resolution_first_nonnull_witness :
    alookup "apogee_km"
      (update_canonical defaultPriority
        [("unoosa", [("apogee_km", Value.str "")]),
         ("kaggle", [("apogee_km", Value.num 500)])]).orbit
      = some (Value.str "") := by
  have h := orbit_tle_resolution_first_nonnull
    [("unoosa", [("apogee_km", Value.str "")]),
     ("kaggle", [("apogee_km", Value.num 500)])]
    "apogee_km" "unoosa" "kaggle" (by decide)
    [] ["celestrak", "tleapi", "kaggle"] rfl (by decide)
    [("apogee_km", Value.str "")] [("apogee_km", Value.num 500)]
    (by decide) (by decide)
    (Value.str "") (Value.num 500)
    (by decide) (by decide) (by decide) (by decide)
    (by
      intro s d hmem hns1 hns2 v _
      rcases List.mem_cons.mp hmem with h | h
      · exact absurd (congrArg Prod.fst h) hns1
      · rcases List.mem_singleton.mp h with h'
        exact absurd (congrArg Prod.fst h') hns2)
  exact h.2.2.2

/-! ### Storage-key derivation -/

/-- Python `str.replace(a, r)` for a single-character pattern: replace every
occurrence of the character `a` by the character list `r`. -/
def replChar (a : Char) (r : List Char) (s : List Char) : List Char :=
  s.flatMap (fun c => if c = a then r else [c])

/-- The `_key` substitution rule of `db.create_satellite_document`
(db.py lines 201-208): `/`, `:`, `.`, spaces and parentheses become `_`,
and `*` becomes `_STAR_`, applied as sequential replaces. -/
def satKeyChars (s : List Char) : List Char :=
  replChar ')' ['_']
    (replChar '(' ['_']
      (replChar ' ' ['_']
        (replChar '*' "_STAR_".toList
          (replChar '.' ['_']
            (replChar ':' ['_']
              (replChar '/' ['_'] s))))))

/-- Storage key synthesized from an identifier by the satellite store. -/
def create_satellite_document_key (identifier : String) : String :=
  String.mk (satKeyChars identifier.data)

/-- The registration-document node key rule of
`populate_registration_network` (lines 90 and 126):
`url.replace('/', '_').replace('.', '_').replace(':', '_')`. -/
def regDocKeyChars (s : List Char) : List Char :=
  replChar ':' ['_'] (replChar '.' ['_'] (replChar '/' ['_'] s))

/-- Storage key synthesized from a reference string by the registration
graph builder. -/
def registration_doc_key (url : String) : String :=
  String.mk (regDocKeyChars url.data)

theorem replChar_append (a : Char) (r x y : List Char) :
    replChar a r (x ++ y) = replChar a r x ++ replChar a r y := by
  simp [replChar]

theorem regDocKeyChars_append (x y : List Char) :
    regDocKeyChars (x ++ y) = regDocKeyChars x ++ regDocKeyChars y := by
  simp [regDocKeyChars, replChar_append]

theorem satKeyChars_append (x y : List Char) :
    satKeyChars (x ++ y) = satKeyChars x ++ satKeyChars y := by
  simp [satKeyChars, replChar_append]

/-- On a single character that is not a space, `*`, `(` or `)`, the two
substitution rules produce the same output. -/
theorem keyChars_single (c : Char)
    (h : c ≠ ' ' ∧ c ≠ '*' ∧ c ≠ '(' ∧ c ≠ ')') :
    regDocKeyChars [c] = satKeyChars [c] := by
  by_cases h1 : c = '/'
  · subst h1; rfl
  · by_cases h2 : c = ':'
    · subst h2; rfl
    · by_cases h3 : c = '.'
      · subst h3; rfl
      · simp [regDocKeyChars, satKeyChars, replChar, List.flatMap_cons,
          h1, h2, h3, h.1, h.2.1, h.2.2.1, h.2.2.2]

/-- The two key rules agree on every character list avoiding the characters
that only the satellite rule substitutes. -/
theorem keyChars_agree (l : List Char)
    (h : ∀ c ∈ l, c ≠ ' ' ∧ c ≠ '*' ∧ c ≠ '(' ∧ c ≠ ')') :
    regDocKeyChars l = satKeyChars l := by
  induction l with
  | nil => rfl
  | cons c t ih =>
    have hc := h c (List.mem_cons_self c t)
    have ht := fun x hx => h x (List.mem_cons_of_mem _ hx)
    rw [show (c :: t) = [c] ++ t from rfl, regDocKeyChars_append, satKeyChars_append,
      keyChars_single c hc, ih ht]

/-- C10: the identifier-to-storage-key substitution is not injective:
`"1998/067A"` and `"1998.067A"` are distinct identifiers that both map to the
storage key `"1998_067A"`, so the new-record branch of
`create_satellite_document` would assign the same `_key` to both even though
their identifiers differ. -/
theorem storage_key_not_injective :
    create_satellite_document_key "1998/067A" = "1998_067A"
    ∧ create_satellite_document_key "1998.067A" = "1998_067A"
    ∧ create_satellite_document_key "1998/067A" = create_satellite_document_key "1998.067A"
    ∧ ("1998/067A" : String) ≠ "1998.067A" := by
  refine ⟨rfl, rfl, rfl, by decide⟩

/-- Counterexample to C6: the registration builder's key rule substitutes only
`/`, `.` and `:`, so on a reference containing a space it disagrees with the
satellite store's key rule. -/
theorem reg_key_disagrees_counterexample :
    registration_doc_key "a b" = "a b"
    ∧ create_satellite_document_key "a b" = "a_b"
    ∧ registration_doc_key "a b" ≠ create_satellite_document_key "a b" := by
  refine ⟨rfl, rfl, by decide⟩

/-- C6 (amended): the registration builder's key-derivation and the satellite
store's key-derivation agree on every reference string that contains none of
the characters space, `*`, `(`, `)`; they differ in general, since the
registration rule substitutes only `/`, `.` and `:`. -/
theorem reg_key_eq_sat_key_of_no_special (s : String)
    (h : ∀ c ∈ s.data, c ≠ ' ' ∧ c ≠ '*' ∧ c ≠ '(' ∧ c ≠ ')') :
    registration_doc_key s = create_satellite_document_key s :=
  congrArg String.mk (keyChars_agree s.data h)

/-- Witness for the amended C6 at a concrete UN document reference. -/
theorem reg_key_eq_sat_key_of_no_special_witness :
    registration_doc_key "ST/SG/SER.E/1043" = create_satellite_document_key "ST/SG/SER.E/1043" :=
  reg_key_eq_sat_key_of_no_special "ST/SG/SER.E/1043" (by decide)

/-! ### Kaggle orbital promotion (`promote_kaggle_orbital.py`) -/

/-- A satellite document as the promotion script sees it: its per-source data
and its canonical view (metadata bookkeeping omitted). -/
structure Doc where
  sources : Sources
  canonical : Canonical
deriving DecidableEq, Repr

/-- AQL attribute access `doc.sources.kaggle.<f>`: a missing attribute reads
as null. -/
def kaggleVal (d : Doc) (f : String) : Value :=
  match alookup "kaggle" d.sources with
  | none => Value.null
  | some k => (alookup f k).getD Value.null

/-- AQL attribute access `doc.canonical.orbit.<f>`. -/
def canonOrbitVal (d : Doc) (f : String) : Value :=
  (alookup f d.canonical.orbit).getD Value.null

/-- AQL truthiness: null, false, 0 and the empty string are falsy. -/
def truthy : Value → Bool
  | Value.null => false
  | Value.boolean b => b
  | Value.num q => if q = 0 then false else true
  | Value.str s => if s = "" then false else true

/-- AQL `x || y`: `y` when `x` is falsy, else `x`. -/
def orElseVal (x y : Value) : Value :=
  if truthy x then x else y

/-- AQL numeric cast used by arithmetic: null and false are 0, true is 1,
numbers are themselves.  (String operands are never exercised by the script's
numeric source fields and are cast to 0 here.) -/
def toNum : Value → ℚ
  | Value.null => 0
  | Value.boolean b => if b then 1 else 0
  | Value.num q => q
  | Value.str _ => 0

/-- AQL `v > 0` for the mean-motion guard: true only for a positive number. -/
def valGt0 : Value → Bool
  | Value.num q => if 0 < q then true else false
  | _ => false

/-- AQL `ROUND(x * 100) / 100` (ROUND: nearest integer, halves toward +inf). -/
def round2 (q : ℚ) : ℚ :=
  ((⌊q * 100 + 1/2⌋ : ℤ) : ℚ) / 100

/-- `EARTH_RADIUS_KM = 6378.137`. -/
def earthRadius : ℚ := 6378137 / 1000

/-- AQL MERGE on one attribute: overwrite the key if present, else append. -/
def setField (l : List (String × Value)) (k : String) (v : Value) :
    List (String × Value) :=
  if (alookup k l).isSome then l.map (fun p => if p.1 = k then (k, v) else p)
  else l ++ [(k, v)]

/-- The AQL UPDATE filter of `promote_kaggle_orbital` (lines 162-168):
Kaggle altitude and inclination present, and at least one of the canonical
orbit triple missing. -/
def promoteApplies (d : Doc) : Bool :=
  (kaggleVal d "altitude_km" != Value.null)
    && (kaggleVal d "inclination" != Value.null)
    && ((canonOrbitVal d "apogee_km" == Value.null)
        || (canonOrbitVal d "perigee_km" == Value.null)
        || (canonOrbitVal d "inclination_degrees" == Value.null))

/-- `LET altitude_km = doc.sources.kaggle.altitude_km`. -/
def kaggleAlt (d : Doc) : ℚ := toNum (kaggleVal d "altitude_km")

/-- `LET eccentricity = doc.sources.kaggle.eccentricity || 0`. -/
def kaggleEcc (d : Doc) : ℚ :=
  toNum (orElseVal (kaggleVal d "eccentricity") (Value.num 0))

/-- `LET apogee = semi_major_axis * (1 + eccentricity) - @earth_radius`. -/
def promApogee (d : Doc) : ℚ :=
  (kaggleAlt d + earthRadius) * (1 + kaggleEcc d) - earthRadius

/-- `LET perigee = semi_major_axis * (1 - eccentricity) - @earth_radius`. -/
def promPerigee (d : Doc) : ℚ :=
  (kaggleAlt d + earthRadius) * (1 - kaggleEcc d) - earthRadius

/-- `LET period = mean_motion > 0 ? 1440.0 / mean_motion : null`. -/
def promPeriod (d : Doc) : Option ℚ :=
  if valGt0 (kaggleVal d "mean_motion")
  then some (1440 / toNum (kaggleVal d "mean_motion"))
  else none

/-- The per-document effect of the AQL UPDATE of `promote_kaggle_orbital`
(lines 160-234): merge the computed values directly into `canonical.orbit`
(keeping any truthy existing canonical value); `sources` is not touched and
the resolver is not re-run.  Transformation-log bookkeeping is omitted. -/
def promotedOrbit (d : Doc) : List (String × Value) :=
  setField (setField (setField (setField d.canonical.orbit
    "inclination_degrees"
      (orElseVal (canonOrbitVal d "inclination_degrees")
        (Value.num (round2 (toNum (kaggleVal d "inclination"))))))
    "apogee_km"
      (orElseVal (canonOrbitVal d "apogee_km")
        (Value.num (round2 (promApogee d)))))
    "perigee_km"
      (orElseVal (canonOrbitVal d "perigee_km")
        (Value.num (round2 (promPerigee d)))))
    "period_minutes"
      (orElseVal (canonOrbitVal d "period_minutes")
        (match promPeriod d with
         | some p => Value.num (round2 p)
         | none => Value.null))

def promote_kaggle_orbital (d : Doc) : Doc :=
  if promoteApplies d then
    { d with canonical := { d.canonical with orbit := promotedOrbit d } }
  else d

theorem alookup_map_replace_self {l : List (String × Value)} {k : String} (v : Value)
    (h : (alookup k l).isSome) :
    alookup k (l.map (fun p => if p.1 = k then (k, v) else p)) = some v := by
  induction l with
  | nil => simp [alookup] at h
  | cons p rest ih =>
    obtain ⟨k1, v1⟩ := p
    by_cases hk : k1 = k
    · subst hk
      simp only [List.map_cons]
      rw [if_pos trivial]
      simp [alookup]
    · simp only [List.map_cons]
      rw [if_neg (show ¬ ((k1, v1).1 = k) from hk)]
      simp only [alookup, hk, if_false] at h ⊢
      exact ih h

theorem alookup_map_replace_other {l : List (String × Value)} {k k' : String} (v : Value)
    (hne : k' ≠ k) :
    alookup k' (l.map (fun p => if p.1 = k then (k, v) else p)) = alookup k' l := by
  induction l with
  | nil => rfl
  | cons p rest ih =>
    obtain ⟨k1, v1⟩ := p
    by_cases hk : k1 = k
    · subst hk
      simp only [List.map_cons]
      rw [if_pos trivial]
      have hne' : ¬ (k1 = k') := fun h => hne h.symm
      simp only [alookup, hne', if_false]
      exact ih
    · simp only [List.map_cons]
      rw [if_neg (show ¬ ((k1, v1).1 = k) from hk)]
      by_cases hk' : k1 = k'
      · simp [alookup, hk']
      · simp only [alookup, hk', if_false]
        exact ih

theorem alookup_append_single_self {l : List (String × Value)} {k : String} (v : Value)
    (h : alookup k l = none) :
    alookup k (l ++ [(k, v)]) = some v := by
  induction l with
  | nil => simp [alookup]
  | cons p rest ih =>
    obtain ⟨k1, v1⟩ := p
    by_cases hk : k1 = k
    · simp [alookup, hk] at h
    · rw [List.cons_append]
      simp only [alookup, hk, if_false] at h ⊢
      exact ih h

theorem alookup_append_single_other {l : List (String × Value)} {k k' : String} (v : Value)
    (hne : k' ≠ k) :
    alookup k' (l ++ [(k, v)]) = alookup k' l := by
  induction l with
  | nil =>
    simp only [List.nil_append, alookup]
    rw [if_neg (show ¬ (k = k') from fun h => hne h.symm)]
  | cons p rest ih =>
    obtain ⟨k1, v1⟩ := p
    rw [List.cons_append]
    by_cases hk' : k1 = k'
    · simp [alookup, hk']
    · simp only [alookup, hk', if_false]
      exact ih

theorem alookup_setField_self (l : List (String × Value)) (k : String) (v : Value) :
    alookup k (setField l k v) = some v := by
  unfold setField
  by_cases h : (alookup k l).isSome
  · rw [if_pos h]
    exact alookup_map_replace_self v h
  · rw [if_neg h]
    exact alookup_append_single_self v (Option.not_isSome_iff_eq_none.mp h)

theorem alookup_setField_other (l : List (String × Value)) (k k' : String)
    (v : Value) (hne : k' ≠ k) :
    alookup k' (setField l k v) = alookup k' l := by
  unfold setField
  by_cases h : (alookup k l).isSome
  · rw [if_pos h]
    exact alookup_map_replace_other v hne
  · rw [if_neg h]
    exact alookup_append_single_other v hne

/-- `⌊1/2⌋ = 0` over the rationals. -/
theorem floor_half_rat : ⌊(1:ℚ)/2⌋ = 0 := by norm_num

/-- Evaluation rule for `round2` when the scaled value is an integer. -/
theorem round2_of_mul_eq {q : ℚ} {n : ℤ} (h : q * 100 = (n : ℚ)) :
    round2 q = (n : ℚ) / 100 := by
  unfold round2
  rw [h, Int.floor_int_add, floor_half_rat, add_zero]

/-- The C2 demonstration sources: only Kaggle data, carrying altitude,
eccentricity and inclination but no direct apogee/perigee fields. -/
def promoDemoSources : Sources :=
  [("kaggle", [("altitude_km", Value.num 408), ("eccentricity", Value.num 0),
    ("inclination", Value.num (258/5))])]

/-- The C2 demonstration document, initially satisfying the resolver
invariant `canonical = update_canonical priority sources`. -/
def promoDemoDoc : Doc :=
  { sources := promoDemoSources,
    canonical := update_canonical defaultPriority promoDemoSources }

theorem promoDemo_applies : promoteApplies promoDemoDoc = true := rfl

theorem promoDemo_apogee : round2 (promApogee promoDemoDoc) = 408 := by
  have ha : promApogee promoDemoDoc = 408 := by
    rw [promApogee, show kaggleAlt promoDemoDoc = 408 from rfl,
      show kaggleEcc promoDemoDoc = 0 from rfl]
    norm_num
  rw [ha, round2_of_mul_eq (show (408:ℚ) * 100 = ((40800 : ℤ) : ℚ) by norm_num)]
  norm_num

/-- Counterexample to C2: a document whose only source is Kaggle altitude,
eccentricity and inclination data.  The enrichment run writes the derived
apogee straight into `canonical.orbit` while `sources` is unchanged, so
afterwards `canonical` is NOT the value the Resolver computes from `sources`
(the resolver still finds no `apogee_km` in any source). -/
theorem promote_writes_canonical_directly_counterexample :
    (promote_kaggle_orbital promoDemoDoc).sources = promoDemoSources
    ∧ alookup "apogee_km" (promote_kaggle_orbital promoDemoDoc).canonical.orbit
        = some (Value.num 408)
    ∧ alookup "apogee_km"
        (update_canonical defaultPriority (promote_kaggle_orbital promoDemoDoc).sources).orbit
      = none := by
  refine ⟨rfl, ?_, rfl⟩
  have horbit : (promote_kaggle_orbital promoDemoDoc).canonical.orbit
      = promotedOrbit promoDemoDoc := rfl
  rw [horbit]
  unfold promotedOrbit
  rw [alookup_setField_other _ _ _ _ (by decide),
    alookup_setField_other _ _ _ _ (by decide),
    alookup_setField_self,
    show canonOrbitVal promoDemoDoc "apogee_km" = Value.null from rfl]
  rw [show orElseVal Value.null (Value.num (round2 (promApogee promoDemoDoc)))
      = Value.num (round2 (promApogee promoDemoDoc)) from rfl]
  rw [promoDemo_apogee]

/-- C2 (amended): `promote_kaggle_orbital` leaves `sources`, the canonical
scalars and the canonical tle object unchanged and, when its filter applies,
writes the computed orbital values directly into `canonical.orbit` — each
field keeping an existing truthy canonical value, otherwise receiving the
value computed from Kaggle's altitude/eccentricity/mean-motion — with no
pseudo-source inserted and no re-resolution, so `canonical` need not equal
the Resolver's output on `sources` after an enrichment run. -/
theorem promote_kaggle_orbital_direct_write (d : Doc) :
    (promote_kaggle_orbital d).sources = d.sources
    ∧ (promote_kaggle_orbital d).canonical.scalars = d.canonical.scalars
    ∧ (promote_kaggle_orbital d).canonical.tle = d.canonical.tle
    ∧ (promoteApplies d = false → promote_kaggle_orbital d = d)
    ∧ (promoteApplies d = true →
        alookup "apogee_km" (promote_kaggle_orbital d).canonical.orbit
          = some (orElseVal (canonOrbitVal d "apogee_km")
              (Value.num (round2 (promApogee d))))
        ∧ alookup "perigee_km" (promote_kaggle_orbital d).canonical.orbit
          = some (orElseVal (canonOrbitVal d "perigee_km")
              (Value.num (round2 (promPerigee d))))
        ∧ alookup "inclination_degrees" (promote_kaggle_orbital d).canonical.orbit
          = some (orElseVal (canonOrbitVal d "inclination_degrees")
              (Value.num (round2 (toNum (kaggleVal d "inclination")))))
        ∧ alookup "period_minutes" (promote_kaggle_orbital d).canonical.orbit
          = some (orElseVal (canonOrbitVal d "period_minutes")
              (match promPeriod d with
               | some p => Value.num (round2 p)
               | none => Value.null))) := by
  by_cases happ : promoteApplies d
  · refine ⟨?_, ?_, ?_, ?_, ?_⟩
    · simp [promote_kaggle_orbital, happ]
    · simp [promote_kaggle_orbital, happ]
    · simp [promote_kaggle_orbital, happ]
    · intro hfalse; rw [happ] at hfalse; cases hfalse
    · intro _
      have horbit : (promote_kaggle_orbital d).canonical.orbit = promotedOrbit d := by
        simp [promote_kaggle_orbital, happ]
      refine ⟨?_, ?_, ?_, ?_⟩
      · rw [horbit]
        unfold promotedOrbit
        rw [alookup_setField_other _ _ _ _ (by decide),
          alookup_setField_other _ _ _ _ (by decide),
          alookup_setField_self]
      · rw [horbit]
        unfold promotedOrbit
        rw [alookup_setField_other _ _ _ _ (by decide),
          alookup_setField_self]
      · rw [horbit]
        unfold promotedOrbit
        rw [alookup_setField_other _ _ _ _ (by decide),
          alookup_setField_other _ _ _ _ (by decide),
          alookup_setField_other _ _ _ _ (by decide),
          alookup_setField_self]
      · rw [horbit]
        unfold promotedOrbit
        rw [alookup_setField_self]
  · have hd : promote_kaggle_orbital d = d := by
      simp [promote_kaggle_orbital, happ]
    refine ⟨by rw [hd], by rw [hd], by rw [hd], fun _ => hd, ?_⟩
    intro htrue
    rw [htrue] at happ
    cases happ rfl

/-- Witness for the amended C2: the direct-write characterization evaluated
on the demonstration document, at the derived perigee field. -/
theorem promote_kaggle_orbital_direct_write_witness :
    alookup "perigee_km" (promote_kaggle_orbital promoDemoDoc).canonical.orbit
      = some (Value.num 408) := by
  have h := promote_kaggle_orbital_direct_write promoDemoDoc
  rw [(h.2.2.2.2 promoDemo_applies).2.1]
  rw [show canonOrbitVal promoDemoDoc "perigee_km" = Value.null from rfl]
  rw [show orElseVal Value.null (Value.num (round2 (promPerigee promoDemoDoc)))
      = Value.num (round2 (promPerigee promoDemoDoc)) from rfl]
  have hp : promPerigee promoDemoDoc = 408 := by
    rw [promPerigee, show kaggleAlt promoDemoDoc = 408 from rfl,
      show kaggleEcc promoDemoDoc = 0 from rfl]
    norm_num
  rw [hp, round2_of_mul_eq (show (408:ℚ) * 100 = ((40800 : ℤ) : ℚ) by norm_num)]
  norm_num

/-! ### Grouping: the model of `defaultdict(list)` accumulation -/

/-- Append `x` to the group of key `k`, creating the group at the end when
absent — the effect of `groups[k].append(x)` on an insertion-ordered dict. -/
def addToGroup {α : Type} (gs : List (String × List α)) (k : String) (x : α) :
    List (String × List α) :=
  match gs with
  | [] => [(k, [x])]
  | (k1, ys) :: rest =>
    if k1 = k then (k1, ys ++ [x]) :: rest else (k1, ys) :: addToGroup rest k x

/-- Group a list by a string key, preserving encounter order of keys and of
members, as the population scripts do with `defaultdict(list)`. -/
def groupByKey {α : Type} (key : α → String) (l : List α) :
    List (String × List α) :=
  l.foldl (fun gs x => addToGroup gs (key x) x) []

theorem alookup_addToGroup_self {α : Type} (gs : List (String × List α))
    (k : String) (x : α) :
    alookup k (addToGroup gs k x) = some ((alookup k gs).getD [] ++ [x]) := by
  induction gs with
  | nil => simp [addToGroup, alookup]
  | cons p rest ih =>
    obtain ⟨k1, ys⟩ := p
    by_cases hk : k1 = k
    · subst hk
      simp [addToGroup, alookup]
    · simp [addToGroup, alookup, hk, ih]

theorem alookup_addToGroup_other {α : Type} (gs : List (String × List α))
    {k k' : String} (x : α) (hne : k' ≠ k) :
    alookup k' (addToGroup gs k x) = alookup k' gs := by
  have hne' : ¬ (k = k') := fun h => hne h.symm
  induction gs with
  | nil => simp [addToGroup, alookup, hne']
  | cons p rest ih =>
    obtain ⟨k1, ys⟩ := p
    by_cases hk : k1 = k
    · subst hk
      simp [addToGroup, alookup, hne']
    · by_cases hk' : k1 = k'
      · subst hk'
        simp [addToGroup, alookup, hk]
      · simp [addToGroup, alookup, hk, hk', ih]

theorem keysOf_addToGroup {α : Type} (gs : List (String × List α)) (k : String) (x : α) :
    keysOf (addToGroup gs k x)
      = if k ∈ keysOf gs then keysOf gs else keysOf gs ++ [k] := by
  induction gs with
  | nil => simp [addToGroup, keysOf]
  | cons p rest ih =>
    obtain ⟨k1, ys⟩ := p
    by_cases hk : k1 = k
    · subst hk
      simp [addToGroup, keysOf]
    · have hk1 : ¬ (k = k1) := fun h => hk h.symm
      have hstep : addToGroup ((k1, ys) :: rest) k x = (k1, ys) :: addToGroup rest k x := by
        simp [addToGroup, hk]
      rw [hstep]
      simp only [keysOf, List.map_cons] at ih ⊢
      rw [ih]
      by_cases hmem : k ∈ List.map Prod.fst rest
      · rw [if_pos hmem, if_pos (List.mem_cons_of_mem _ hmem)]
      · rw [if_neg hmem, if_neg (by simp [List.mem_cons, hk1, hmem]), List.cons_append]

theorem nodup_keysOf_addToGroup {α : Type} {gs : List (String × List α)}
    (k : String) (x : α) (h : (keysOf gs).Nodup) :
    (keysOf (addToGroup gs k x)).Nodup := by
  rw [keysOf_addToGroup]
  by_cases hmem : k ∈ keysOf gs
  · simpa [hmem] using h
  · rw [if_neg hmem]
    simp [List.nodup_append, h, hmem]

theorem alookup_foldl_addToGroup {α : Type} (key : α → String) (l : List α)
    (gs : List (String × List α)) (k : String) :
    alookup k (l.foldl (fun gs x => addToGroup gs (key x) x) gs)
      = match alookup k gs with
        | some ys => some (ys ++ l.filter (fun x => key x = k))
        | none =>
          if (l.filter (fun x => key x = k)).isEmpty then none
          else some (l.filter (fun x => key x = k)) := by
  induction l generalizing gs with
  | nil => cases h : alookup k gs <;> simp [h]
  | cons x rest ih =>
    rw [List.foldl_cons]
    by_cases hk : key x = k
    · subst hk
      rw [ih, alookup_addToGroup_self]
      cases h : alookup (key x) gs with
      | some ys => simp [h, List.filter_cons]
      | none => simp [h, List.filter_cons]
    · have hne : k ≠ key x := fun h => hk h.symm
      rw [ih, alookup_addToGroup_other _ x hne]
      cases h : alookup k gs with
      | some ys => simp [h, List.filter_cons, hk]
      | none => simp [h, List.filter_cons, hk]

theorem alookup_groupByKey {α : Type} (key : α → String) (l : List α) (k : String) :
    alookup k (groupByKey key l)
      = if (l.filter (fun x => key x = k)).isEmpty then none
        else some (l.filter (fun x => key x = k)) := by
  rw [groupByKey, alookup_foldl_addToGroup]
  simp [alookup]

theorem nodup_keysOf_groupByKey {α : Type} (key : α → String) (l : List α) :
    (keysOf (groupByKey key l)).Nodup := by
  rw [groupByKey]
  have h : ∀ gs : List (String × List α), (keysOf gs).Nodup →
      (keysOf (l.foldl (fun gs x => addToGroup gs (key x) x) gs)).Nodup := by
    induction l with
    | nil => exact fun gs h => h
    | cons x rest ih =>
      intro gs hgs
      rw [List.foldl_cons]
      exact ih _ (nodup_keysOf_addToGroup _ _ hgs)
  exact h [] (by simp [keysOf])

theorem alookup_of_mem_nodup {α : Type} {l : List (String × α)} {k : String} {v : α}
    (hnd : (keysOf l).Nodup) (hmem : (k, v) ∈ l) : alookup k l = some v := by
  induction l with
  | nil => simp at hmem
  | cons p rest ih =>
    obtain ⟨k1, v1⟩ := p
    simp only [keysOf, List.map_cons, List.nodup_cons] at hnd
    rcases List.mem_cons.mp hmem with h | h
    · obtain ⟨h1, h2⟩ := Prod.mk.inj h
      subst h1
      subst h2
      simp [alookup]
    · have hk : k1 ≠ k := by
        intro he
        subst he
        exact hnd.1 (List.mem_map_of_mem Prod.fst h)
      simp only [alookup, hk, if_false]
      exact ih hnd.2 h

/-- Every entry of a grouped list is the filter of its key's members, and is
nonempty. -/
theorem mem_groupByKey_eq {α : Type} {key : α → String} {l : List α}
    {c : String} {ms : List α} (hmem : (c, ms) ∈ groupByKey key l) :
    ms = l.filter (fun x => key x = c) ∧ ms ≠ [] := by
  have h := alookup_of_mem_nodup (nodup_keysOf_groupByKey key l) hmem
  rw [alookup_groupByKey] at h
  by_cases he : (l.filter (fun x => key x = c)).isEmpty
  · simp [he] at h
  · rw [if_neg he] at h
    have hms : ms = l.filter (fun x => key x = c) := (Option.some.inj h).symm
    refine ⟨hms, fun hnil => he ?_⟩
    have hfil : l.filter (fun x => key x = c) = [] := hms ▸ hnil
    rw [hfil]
    rfl

theorem countP_flatMap {α β : Type} (l : List α) (f : α → List β) (p : β → Bool) :
    (l.flatMap f).countP p = (l.map (fun a => (f a).countP p)).sum := by
  induction l with
  | nil => rfl
  | cons x rest ih => simp [List.flatMap_cons, List.countP_append, ih]

/-- Summing over groups with pairwise-distinct keys: a single group
contributes 1 and all other keys contribute 0. -/
theorem sum_map_eq_one_of_unique {β : Type} (l : List β) (f : β → Nat)
    (keyf : β → String) (c : String)
    (hnd : (l.map keyf).Nodup) (g0 : β) (hg0 : g0 ∈ l) (hkey : keyf g0 = c)
    (hf : f g0 = 1) (hzero : ∀ g ∈ l, keyf g ≠ c → f g = 0) :
    (l.map f).sum = 1 := by
  induction l with
  | nil => simp at hg0
  | cons g rest ih =>
    simp only [List.map_cons, List.nodup_cons] at hnd
    by_cases hgc : keyf g = c
    · have hg0r : g0 ∉ rest := by
        intro h
        apply hnd.1
        have hm : keyf g0 ∈ rest.map keyf := List.mem_map_of_mem keyf h
        rwa [hkey, ← hgc] at hm
      have hgg0 : g0 = g := by
        rcases List.mem_cons.mp hg0 with h | h
        · exact h
        · exact absurd h hg0r
      have hrest : ∀ x ∈ rest.map f, x = 0 := by
        intro x hx
        rcases List.mem_map.mp hx with ⟨g', hg', rfl⟩
        refine hzero g' (List.mem_cons_of_mem _ hg') ?_
        intro he
        apply hnd.1
        have hm : keyf g' ∈ rest.map keyf := List.mem_map_of_mem keyf hg'
        rwa [he, ← hgc] at hm
      rw [List.map_cons, List.sum_cons, ← hgg0, hf, List.sum_eq_zero hrest]
      rfl
    · have hg0r : g0 ∈ rest := by
        rcases List.mem_cons.mp hg0 with h | h
        · exact absurd (h ▸ hkey) hgc
        · exact h
      have hz : f g = 0 := hzero g (List.mem_cons_self _ _) hgc
      rw [List.map_cons, List.sum_cons, hz, Nat.zero_add]
      exact ih hnd.2 hg0r fun g hg hne => hzero g (List.mem_cons_of_mem _ hg) hne

/-! ### Constellation network (`populate_constellation_network.py`) -/

/-- A satellite row returned by the constellation extraction query: `_key`,
`identifier` and the (non-null) Kaggle constellation label. -/
structure CSat where
  key : String
  identifier : String
  constellation : String
deriving DecidableEq, Repr

/-- The AQL `SORT doc.identifier ASC` comparison. -/
def csatLe (a b : CSat) : Bool := decide (a.identifier ≤ b.identifier)

/-- A constellation membership edge (`_from` member, `_to` hub);
`relationship` is the constant "member_to_hub" and is omitted. -/
structure ConstEdge where
  fromKey : String
  toKey : String
  constellation_name : String
deriving DecidableEq, Repr

/-- Group the sorted satellites by constellation label (lines 51-53). -/
def constellationGroups (sats : List CSat) : List (String × List CSat) :=
  groupByKey (fun s => s.constellation) (sats.mergeSort csatLe)

/-- Edge emission for one constellation (lines 64-67 and 91-105): the hub is
`members[0]`; every member whose `_key` differs from the hub's gets one edge
to the hub. -/
def constellationEdges (name : String) (members : List CSat) : List ConstEdge :=
  match members with
  | [] => []
  | hub :: _ =>
    members.filterMap (fun s =>
      if s.key = hub.key then none
      else some { fromKey := s.key, toKey := hub.key, constellation_name := name })

/-- `populate_constellation_network`: the full edge list over all groups. -/
def populate_constellation_network (sats : List CSat) : List ConstEdge :=
  (constellationGroups sats).flatMap (fun g => constellationEdges g.1 g.2)

theorem mem_constellationEdges {name : String} {members : List CSat} {e : ConstEdge}
    (he : e ∈ constellationEdges name members) :
    ∃ hub, members.head? = some hub
      ∧ e.constellation_name = name ∧ e.toKey = hub.key ∧ e.fromKey ≠ hub.key
      ∧ ∃ s ∈ members, s.key = e.fromKey := by
  cases members with
  | nil => simp [constellationEdges] at he
  | cons h0 rest =>
    refine ⟨h0, rfl, ?_⟩
    simp only [constellationEdges] at he
    rcases List.mem_filterMap.mp he with ⟨s, hs, hcond⟩
    by_cases hsk : s.key = h0.key
    · simp [hsk] at hcond
    · rw [if_neg hsk] at hcond
      have he' := Option.some.inj hcond
      rw [← he']
      exact ⟨rfl, rfl, hsk, ⟨s, hs, rfl⟩⟩

theorem countP_constellationEdges_zero {name : String} {members : List CSat}
    (k : String) (h : ∀ s ∈ members, s.key ≠ k) :
    (constellationEdges name members).countP (fun e => e.fromKey = k) = 0 := by
  rw [List.countP_eq_zero]
  intro e he hp
  rcases mem_constellationEdges he with ⟨hub, _, _, _, _, s, hs, hsk⟩
  exact h s hs (hsk.trans (by simpa using hp))

theorem countP_filterMap_edge_one {name : String} (hub m : CSat) (l : List CSat)
    (hnd : (l.map CSat.key).Nodup) (hne : m.key ≠ hub.key) (hm : m ∈ l) :
    (l.filterMap (fun s => if s.key = hub.key then none
        else some { fromKey := s.key, toKey := hub.key,
                    constellation_name := name : ConstEdge })).countP
      (fun e => e.fromKey = m.key) = 1 := by
  induction l with
  | nil => simp at hm
  | cons s rest ih =>
    simp only [List.map_cons, List.nodup_cons] at hnd
    have hzero : m.key ∉ rest.map CSat.key →
        (rest.filterMap (fun s => if s.key = hub.key then none
          else some { fromKey := s.key, toKey := hub.key,
                      constellation_name := name : ConstEdge })).countP
          (fun e => e.fromKey = m.key) = 0 := by
      intro hnm
      rw [List.countP_eq_zero]
      intro e he hp
      rcases List.mem_filterMap.mp he with ⟨s', hs', hcond⟩
      by_cases hsk : s'.key = hub.key
      · simp [hsk] at hcond
      · rw [if_neg hsk] at hcond
        rw [← Option.some.inj hcond] at hp
        simp only [decide_eq_true_eq] at hp
        exact hnm (hp ▸ List.mem_map_of_mem CSat.key hs')
    by_cases hsm : s = m
    · subst hsm
      rw [List.filterMap_cons, if_neg (show ¬ (s.key = hub.key) from hne)]
      rw [List.countP_cons_of_pos _ _ (by simp)]
      rw [hzero hnd.1, Nat.zero_add]
    · have hmr : m ∈ rest := by
        rcases List.mem_cons.mp hm with h | h
        · exact absurd h.symm hsm
        · exact h
      have hks : s.key ≠ m.key := by
        intro he
        exact hnd.1 (he ▸ List.mem_map_of_mem CSat.key hmr)
      rw [List.filterMap_cons]
      by_cases hsk : s.key = hub.key
      · rw [if_pos hsk]
        exact ih hnd.2 hmr
      · rw [if_neg hsk]
        rw [List.countP_cons_of_neg _ _ (by simpa using hks)]
        exact ih hnd.2 hmr

/-- C5: in the constellation graph, every constellation label present among
the satellites has exactly one designated hub — the member with the
lexicographically least identifier — the hub has no outgoing constellation
edge, and every other member has exactly one outgoing edge, whose target is
the hub. -/
theorem constellation_star_invariant (sats : List CSat)
    (hkeys : (sats.map CSat.key).Nodup)
    (hids : (sats.map CSat.identifier).Nodup)
    (c : String) (hc : ∃ s ∈ sats, s.constellation = c) :
    ∃ hub : CSat,
      (hub ∈ sats ∧ hub.constellation = c
        ∧ ∀ m ∈ sats, m.constellation = c → hub.identifier ≤ m.identifier)
      ∧ (∀ hub' : CSat, hub' ∈ sats → hub'.constellation = c →
          (∀ m ∈ sats, m.constellation = c → hub'.identifier ≤ m.identifier) →
          hub' = hub)
      ∧ (populate_constellation_network sats).countP
          (fun e => e.fromKey = hub.key) = 0
      ∧ ∀ m ∈ sats, m.constellation = c → m.key ≠ hub.key →
          (populate_constellation_network sats).countP
            (fun e => e.fromKey = m.key) = 1
          ∧ ∀ e ∈ populate_constellation_network sats,
              e.fromKey = m.key → e.toKey = hub.key ∧ e.constellation_name = c := by
  classical
  set sorted := sats.mergeSort csatLe with hsorted
  have hperm : sorted.Perm sats := List.mergeSort_perm sats csatLe
  have hsortkeys : (sorted.map CSat.key).Nodup := ((hperm.map CSat.key).symm).nodup hkeys
  have hsortids : (sorted.map CSat.identifier).Nodup :=
    ((hperm.map CSat.identifier).symm).nodup hids
  have hpair : sorted.Pairwise (fun a b => csatLe a b = true) := by
    apply List.sorted_mergeSort
    · intro a b c hab hbc
      simp only [csatLe, decide_eq_true_eq] at hab hbc ⊢
      exact le_trans hab hbc
    · intro a b
      simp only [csatLe]
      rcases le_total a.identifier b.identifier with h | h <;> simp [h]
  set ms := sorted.filter (fun s => s.constellation = c) with hms
  have hmem_ms : ∀ s, s ∈ ms ↔ (s ∈ sats ∧ s.constellation = c) := by
    intro s
    rw [hms, List.mem_filter]
    constructor
    · rintro ⟨h1, h2⟩
      exact ⟨hperm.mem_iff.mp h1, by simpa using h2⟩
    · rintro ⟨h1, h2⟩
      exact ⟨hperm.mem_iff.mpr h1, by simpa using h2⟩
  have hms_ne : ms ≠ [] := by
    obtain ⟨s, hs, hsc⟩ := hc
    intro hnil
    have : s ∈ ms := (hmem_ms s).mpr ⟨hs, hsc⟩
    rw [hnil] at this
    simp at this
  obtain ⟨hub, tl, hms_eq⟩ : ∃ hub tl, ms = hub :: tl := by
    cases hcase : ms with
    | nil => exact absurd hcase hms_ne
    | cons a b => exact ⟨a, b, rfl⟩
  have hms_pair : ms.Pairwise (fun a b => csatLe a b = true) :=
    hpair.sublist (List.filter_sublist sorted)
  have hhub_mem : hub ∈ ms := by rw [hms_eq]; exact List.mem_cons_self _ _
  have hhub_sat : hub ∈ sats ∧ hub.constellation = c := (hmem_ms hub).mp hhub_mem
  have hhub_min : ∀ m ∈ sats, m.constellation = c → hub.identifier ≤ m.identifier := by
    intro m hm hmc
    have hmms : m ∈ ms := (hmem_ms m).mpr ⟨hm, hmc⟩
    rw [hms_eq] at hmms
    rcases List.mem_cons.mp hmms with h | h
    · rw [h]
    · have := (List.pairwise_cons.mp (hms_eq ▸ hms_pair)).1 m h
      simpa [csatLe] using this
  have hCG : constellationGroups sats = groupByKey (fun s => s.constellation) sorted := by
    rw [hsorted]
    rfl
  have hlook : alookup c (constellationGroups sats)
      = if (sorted.filter (fun s => s.constellation = c)).isEmpty then none
        else some (sorted.filter (fun s => s.constellation = c)) := by
    rw [hCG]
    exact alookup_groupByKey (fun s : CSat => s.constellation) sorted c
  have hfe : (sorted.filter (fun s => s.constellation = c)).isEmpty = false := by
    rw [← hms]
    cases hcase : ms with
    | nil => exact absurd hcase hms_ne
    | cons a b => rfl
  have hlook2 : alookup c (constellationGroups sats) = some ms := by
    rw [hlook, hfe, ← hms]
    simp
  have hgrp : (c, ms) ∈ constellationGroups sats := alookup_mem hlook2
  have hgrp_nodup : (keysOf (constellationGroups sats)).Nodup :=
    nodup_keysOf_groupByKey _ _
  have hgroup_members : ∀ g ∈ constellationGroups sats, ∀ s ∈ g.2,
      s ∈ sorted ∧ s.constellation = g.1 := by
    intro g hg s hs
    rw [hCG] at hg
    have hge : g.2 = sorted.filter (fun x => x.constellation = g.1) ∧ g.2 ≠ [] :=
      mem_groupByKey_eq (show (g.1, g.2) ∈ groupByKey (fun s => s.constellation) sorted from hg)
    rw [hge.1] at hs
    have h2 := List.mem_filter.mp hs
    exact ⟨h2.1, by simpa using h2.2⟩
  have hgroup_eq : ∀ g ∈ constellationGroups sats, g.1 = c → g.2 = ms := by
    intro g hg hgc
    have h1 := alookup_of_mem_nodup hgrp_nodup (show (g.1, g.2) ∈ _ from hg)
    rw [hgc, hlook2] at h1
    exact (Option.some.inj h1).symm
  have hub_in_sorted : hub ∈ sorted := List.mem_of_mem_filter (hms ▸ hhub_mem)
  have hsub_ms : ms.Sublist sorted := by
    rw [hms]
    exact List.filter_sublist sorted
  have msnodup : (ms.map CSat.key).Nodup := hsortkeys.sublist (hsub_ms.map CSat.key)
  refine ⟨hub, ⟨hhub_sat.1, hhub_sat.2, hhub_min⟩, ?_, ?_, ?_⟩
  · intro hub' hmem' hc' hmin'
    have h1 : hub'.identifier ≤ hub.identifier := hmin' hub hhub_sat.1 hhub_sat.2
    have h2 : hub.identifier ≤ hub'.identifier := hhub_min hub' hmem' hc'
    have hid : hub'.identifier = hub.identifier := le_antisymm h1 h2
    exact List.inj_on_of_nodup_map hids hmem' hhub_sat.1 hid
  · rw [List.countP_eq_zero]
    intro e he hp
    simp only [decide_eq_true_eq] at hp
    rcases List.mem_flatMap.mp he with ⟨g, hg, hge⟩
    rcases mem_constellationEdges hge with ⟨hub_g, hhd, _hname, _hto, hfrom_ne, s, hs, hsk⟩
    by_cases hgc : g.1 = c
    · have hgm : g.2 = ms := hgroup_eq g hg hgc
      rw [hgm, hms_eq] at hhd
      have hhg : hub_g = hub := by simpa using hhd.symm
      exact hfrom_ne (by rw [hp, hhg])
    · have hsmem := hgroup_members g hg s hs
      have hshub : s ≠ hub := by
        intro he'
        rw [he'] at hsmem
        exact hgc (hsmem.2.symm.trans hhub_sat.2)
      have hskey : s.key ≠ hub.key := fun he' =>
        hshub (List.inj_on_of_nodup_map hsortkeys hsmem.1 hub_in_sorted he')
      exact hskey (hsk.trans hp)
  · intro m hm hmc hmk
    have hmms : m ∈ ms := (hmem_ms m).mpr ⟨hm, hmc⟩
    have hm_sorted : m ∈ sorted := List.mem_of_mem_filter (hms ▸ hmms)
    have hemit : constellationEdges c ms = ms.filterMap (fun s =>
        if s.key = hub.key then none
        else some { fromKey := s.key, toKey := hub.key, constellation_name := c }) := by
      rw [hms_eq]
      rfl
    have hzero_other : ∀ g, g ∈ constellationGroups sats → g.1 ≠ c →
        (constellationEdges g.1 g.2).countP (fun e => e.fromKey = m.key) = 0 := by
      intro g hg hgc
      apply countP_constellationEdges_zero
      intro s hs
      have hsmem := hgroup_members g hg s hs
      have hsm : s ≠ m := by
        intro he'
        rw [he'] at hsmem
        exact hgc (hsmem.2.symm.trans hmc)
      exact fun he' => hsm (List.inj_on_of_nodup_map hsortkeys hsmem.1 hm_sorted he')
    constructor
    · rw [populate_constellation_network, countP_flatMap]
      apply sum_map_eq_one_of_unique _ _ Prod.fst c hgrp_nodup (c, ms) hgrp rfl
      · show (constellationEdges c ms).countP (fun e => e.fromKey = m.key) = 1
        rw [hemit]
        exact countP_filterMap_edge_one hub m ms msnodup hmk hmms
      · intro g hg hgc
        exact hzero_other g hg hgc
    · intro e he hef
      rcases List.mem_flatMap.mp he with ⟨g, hg, hge⟩
      by_cases hgc : g.1 = c
      · have hgm : g.2 = ms := hgroup_eq g hg hgc
        rcases mem_constellationEdges hge with ⟨hub_g, hhd, hname, hto, _, _⟩
        rw [hgm, hms_eq] at hhd
        have hhg : hub_g = hub := by simpa using hhd.symm
        exact ⟨by rw [hto, hhg], by rw [hname, hgc]⟩
      · exfalso
        have h0 := hzero_other g hg hgc
        rw [List.countP_eq_zero] at h0
        exact h0 e hge (by simpa using hef)

/-- Witness for C5 at two Starlink satellites: the member with identifier
"A" is the hub and the other member links to it. -/
theorem constellation_star_invariant_witness :
    ∃ hub : CSat,
      (hub ∈ [⟨"s2", "B", "Starlink"⟩, ⟨"s1", "A", "Starlink"⟩]
        ∧ hub.constellation = "Starlink"
        ∧ ∀ m ∈ ([⟨"s2", "B", "Starlink"⟩, ⟨"s1", "A", "Starlink"⟩] : List CSat),
            m.constellation = "Starlink" → hub.identifier ≤ m.identifier)
      ∧ (∀ hub' : CSat, hub' ∈ [⟨"s2", "B", "Starlink"⟩, ⟨"s1", "A", "Starlink"⟩] →
          hub'.constellation = "Starlink" →
          (∀ m ∈ ([⟨"s2", "B", "Starlink"⟩, ⟨"s1", "A", "Starlink"⟩] : List CSat),
            m.constellation = "Starlink" → hub'.identifier ≤ m.identifier) →
          hub' = hub)
      ∧ (populate_constellation_network [⟨"s2", "B", "Starlink"⟩, ⟨"s1", "A", "Starlink"⟩]).countP
          (fun e => e.fromKey = hub.key) = 0
      ∧ ∀ m ∈ ([⟨"s2", "B", "Starlink"⟩, ⟨"s1", "A", "Starlink"⟩] : List CSat),
          m.constellation = "Starlink" → m.key ≠ hub.key →
          (populate_constellation_network
              [⟨"s2", "B", "Starlink"⟩, ⟨"s1", "A", "Starlink"⟩]).countP
            (fun e => e.fromKey = m.key) = 1
          ∧ ∀ e ∈ populate_constellation_network
              [⟨"s2", "B", "Starlink"⟩, ⟨"s1", "A", "Starlink"⟩],
              e.fromKey = m.key → e.toKey = hub.key ∧ e.constellation_name = "Starlink" :=
  constellation_star_invariant
    [⟨"s2", "B", "Starlink"⟩, ⟨"s1", "A", "Starlink"⟩]
    (by decide) (by decide) "Starlink"
    ⟨⟨"s2", "B", "Starlink"⟩, by decide, rfl⟩

/-! ### Registration network (`populate_registration_network.py`) -/

/-- A satellite row as seen by the registration extraction query: `_key`,
`identifier`, the registration-document reference (null allowed before the
query filter) and the country. -/
structure RSat where
  key : String
  identifier : String
  regdoc : Option String
  country : Option String
deriving DecidableEq, Repr

/-- The AQL filter `doc.canonical.registration_document != null` (line 32). -/
def regSatsWithDoc (sats : List RSat) : List RSat :=
  sats.filter (fun s => s.regdoc ≠ none)

/-- The grouping key: the reference string itself. -/
def regKeyOf (s : RSat) : String := s.regdoc.getD ""

/-- `reg_doc_data` (lines 50-60): group the filtered satellites by reference. -/
def regDocData (sats : List RSat) : List (String × List RSat) :=
  groupByKey regKeyOf (regSatsWithDoc sats)

/-- Python `set.add`: accumulate each non-null country once. -/
def insertIfAbsent (l : List String) (x : String) : List String :=
  if x ∈ l then l else l ++ [x]

/-- The countries set of one group (line 59-60), in first-encounter order. -/
def collectCountries (ms : List RSat) : List String :=
  ms.foldl (fun acc s =>
    match s.country with
    | none => acc
    | some ctry => insertIfAbsent acc ctry) []

/-- A registration document node (lines 88-98). -/
structure RegDocNode where
  key : String
  url : String
  satellite_count : Nat
  countries : List String
deriving DecidableEq, Repr

/-- A registration edge (lines 124-135). -/
structure RegEdge where
  fromId : String
  toId : String
  registration_document : String
deriving DecidableEq, Repr

/-- The node list built by `populate_registration_network`. -/
def populate_registration_nodes (sats : List RSat) : List RegDocNode :=
  (regDocData sats).map (fun g =>
    { key := registration_doc_key g.1
    , url := g.1
    , satellite_count := g.2.length
    , countries := (collectCountries g.2).mergeSort (fun a b => decide (a ≤ b)) })

/-- The edge list built by `populate_registration_network`. -/
def populate_registration_edges (sats : List RSat) : List RegEdge :=
  (regDocData sats).flatMap (fun g =>
    g.2.map (fun s =>
      { fromId := "satellites/" ++ s.key
      , toId := "registration_documents/" ++ registration_doc_key g.1
      , registration_document := g.1 }))

theorem string_append_cancel {p a b : String} (h : p ++ a = p ++ b) : a = b := by
  have h2 : (p ++ a).data = (p ++ b).data := congrArg String.data h
  rw [String.data_append, String.data_append] at h2
  exact String.ext (List.append_cancel_left h2)

theorem mem_keysOf_groupByKey {α : Type} (key : α → String) (l : List α) (a : String) :
    a ∈ keysOf (groupByKey key l) ↔ ∃ x ∈ l, key x = a := by
  by_cases he : (l.filter (fun x => key x = a)).isEmpty
  · have hnone : alookup a (groupByKey key l) = none := by
      rw [alookup_groupByKey, if_pos he]
    have hnk : a ∉ keysOf (groupByKey key l) := (alookup_eq_none_iff _ _).mp hnone
    constructor
    · intro h
      exact absurd h hnk
    · rintro ⟨x, hx, hkey⟩
      exfalso
      have hmem : x ∈ l.filter (fun x => key x = a) :=
        List.mem_filter.mpr ⟨hx, by simpa using hkey⟩
      rw [List.isEmpty_iff.mp he] at hmem
      simp at hmem
  · have hsome : alookup a (groupByKey key l) ≠ none := by
      rw [alookup_groupByKey, if_neg he]
      simp
    have hk : a ∈ keysOf (groupByKey key l) := by
      by_contra hc
      exact hsome ((alookup_eq_none_iff _ _).mpr hc)
    have hex : ∃ x ∈ l, key x = a := by
      have hne : l.filter (fun x => key x = a) ≠ [] := by
        intro hnil
        rw [hnil] at he
        exact he rfl
      obtain ⟨x, hx⟩ := List.exists_mem_of_ne_nil _ hne
      have h2 := List.mem_filter.mp hx
      exact ⟨x, h2.1, by simpa using h2.2⟩
    exact iff_of_true hk hex

theorem countP_keyEq_one {α : Type} (keyf : α → String) (l : List α) (s : α)
    (hnd : (l.map keyf).Nodup) (hs : s ∈ l) :
    l.countP (fun m => keyf m = keyf s) = 1 := by
  induction l with
  | nil => simp at hs
  | cons x rest ih =>
    simp only [List.map_cons, List.nodup_cons] at hnd
    by_cases hx : keyf x = keyf s
    · rw [List.countP_cons_of_pos _ _ (by simpa using hx)]
      have hz : rest.countP (fun m => keyf m = keyf s) = 0 := by
        rw [List.countP_eq_zero]
        intro m hm hp
        apply hnd.1
        have : keyf m = keyf x := by
          simp only [decide_eq_true_eq] at hp
          rw [hp, hx]
        exact this ▸ List.mem_map_of_mem keyf hm
      rw [hz]
    · have hsr : s ∈ rest := by
        rcases List.mem_cons.mp hs with h | h
        · exact absurd (h ▸ rfl : keyf x = keyf s) hx
        · exact h
      rw [List.countP_cons_of_neg _ _ (by simpa using hx)]
      exact ih hnd.2 hsr

theorem mem_insertIfAbsent (l : List String) (x y : String) :
    y ∈ insertIfAbsent l x ↔ y ∈ l ∨ y = x := by
  unfold insertIfAbsent
  by_cases h : x ∈ l
  · rw [if_pos h]
    constructor
    · exact Or.inl
    · rintro (hy | rfl)
      · exact hy
      · exact h
  · rw [if_neg h]
    simp

theorem nodup_insertIfAbsent (l : List String) (x : String) (h : l.Nodup) :
    (insertIfAbsent l x).Nodup := by
  unfold insertIfAbsent
  by_cases hm : x ∈ l
  · rwa [if_pos hm]
  · rw [if_neg hm]
    simp [List.nodup_append, h, hm]

theorem mem_collectCountries_aux (ms : List RSat) (acc : List String) (x : String) :
    x ∈ ms.foldl (fun acc s =>
      match s.country with
      | none => acc
      | some ctry => insertIfAbsent acc ctry) acc
    ↔ x ∈ acc ∨ ∃ s ∈ ms, s.country = some x := by
  induction ms generalizing acc with
  | nil => simp
  | cons s rest ih =>
    rw [List.foldl_cons]
    cases hc : s.country with
    | none =>
      rw [ih]
      constructor
      · rintro (h | h)
        · exact Or.inl h
        · exact Or.inr (by
            obtain ⟨t, ht, htc⟩ := h
            exact ⟨t, List.mem_cons_of_mem _ ht, htc⟩)
      · rintro (h | ⟨t, ht, htc⟩)
        · exact Or.inl h
        · rcases List.mem_cons.mp ht with rfl | htr
          · rw [hc] at htc
            cases htc
          · exact Or.inr ⟨t, htr, htc⟩
    | some ctry =>
      rw [ih]
      rw [mem_insertIfAbsent]
      constructor
      · rintro ((h | rfl) | ⟨t, ht, htc⟩)
        · exact Or.inl h
        · exact Or.inr ⟨s, List.mem_cons_self _ _, hc⟩
        · exact Or.inr ⟨t, List.mem_cons_of_mem _ ht, htc⟩
      · rintro (h | ⟨t, ht, htc⟩)
        · exact Or.inl (Or.inl h)
        · rcases List.mem_cons.mp ht with rfl | htr
          · rw [hc] at htc
            exact Or.inl (Or.inr (Option.some.inj htc).symm)
          · exact Or.inr ⟨t, htr, htc⟩

theorem mem_collectCountries (ms : List RSat) (x : String) :
    x ∈ collectCountries ms ↔ ∃ s ∈ ms, s.country = some x := by
  rw [collectCountries, mem_collectCountries_aux]
  simp

theorem nodup_collectCountries (ms : List RSat) : (collectCountries ms).Nodup := by
  rw [collectCountries]
  have h : ∀ acc : List String, acc.Nodup →
      (ms.foldl (fun acc s =>
        match s.country with
        | none => acc
        | some ctry => insertIfAbsent acc ctry) acc).Nodup := by
    induction ms with
    | nil => exact fun acc h => h
    | cons s rest ih =>
      intro acc hacc
      rw [List.foldl_cons]
      cases hc : s.country with
      | none => exact ih acc hacc
      | some ctry => exact ih _ (nodup_insertIfAbsent acc ctry hacc)
  exact h [] List.nodup_nil

theorem regDocData_filter_eq (sats : List RSat) (url : String) :
    (regSatsWithDoc sats).filter (fun x => regKeyOf x = url)
      = sats.filter (fun s => s.regdoc = some url) := by
  rw [regSatsWithDoc, List.filter_filter]
  apply List.filter_congr
  intro a _
  cases hd : a.regdoc <;> simp [regKeyOf, hd]

theorem regDocData_entry (sats : List RSat) :
    ∀ g ∈ regDocData sats,
      g.2 = sats.filter (fun s => s.regdoc = some g.1) ∧ g.2 ≠ [] := by
  intro g hg
  have hge := mem_groupByKey_eq
    (show (g.1, g.2) ∈ groupByKey regKeyOf (regSatsWithDoc sats) from hg)
  refine ⟨?_, hge.2⟩
  rw [hge.1]
  exact regDocData_filter_eq sats g.1

theorem mem_keysOf_regDocData (sats : List RSat) (url : String) :
    url ∈ keysOf (regDocData sats) ↔ ∃ s ∈ sats, s.regdoc = some url := by
  rw [regDocData, mem_keysOf_groupByKey]
  constructor
  · rintro ⟨x, hx, hxk⟩
    have h2 := List.mem_filter.mp hx
    refine ⟨x, h2.1, ?_⟩
    cases hd : x.regdoc with
    | none => simp [hd] at h2
    | some u =>
      rw [regKeyOf, hd] at hxk
      simpa [hd] using congrArg Option.some hxk
  · rintro ⟨s, hs, hsd⟩
    refine ⟨s, List.mem_filter.mpr ⟨hs, by simp [hsd]⟩, ?_⟩
    rw [regKeyOf, hsd]
    rfl

/-- C7: after a registration-network run, the number of document nodes equals
the number of distinct non-null registration references across all
satellites; each node's key is derived from its reference, it carries the
member count and the sorted distinct countries of its member satellites; and
every satellite with a reference has exactly one outgoing registration edge,
pointing at its reference's document node. -/
theorem registration_network_spec (sats : List RSat)
    (hkeys : (sats.map RSat.key).Nodup) :
    (populate_registration_nodes sats).length
      = (sats.filterMap RSat.regdoc).dedup.length
    ∧ (∀ n ∈ populate_registration_nodes sats,
        n.key = registration_doc_key n.url
        ∧ n.satellite_count = (sats.filter (fun s => s.regdoc = some n.url)).length
        ∧ n.countries.Sorted (fun a b => a ≤ b)
        ∧ n.countries.Nodup
        ∧ (∀ ctry, ctry ∈ n.countries ↔
            ∃ s ∈ sats, s.regdoc = some n.url ∧ s.country = some ctry))
    ∧ (∀ url, (∃ s ∈ sats, s.regdoc = some url)
        ↔ ∃ n ∈ populate_registration_nodes sats, n.url = url)
    ∧ (∀ s ∈ sats, ∀ url, s.regdoc = some url →
        (populate_registration_edges sats).countP
          (fun e => e.fromId = "satellites/" ++ s.key) = 1
        ∧ ∀ e ∈ populate_registration_edges sats,
            e.fromId = "satellites/" ++ s.key →
            e.toId = "registration_documents/" ++ registration_doc_key url
            ∧ e.registration_document = url) := by
  have hgrp_nodup : (keysOf (regDocData sats)).Nodup := nodup_keysOf_groupByKey _ _
  have hmember : ∀ g ∈ regDocData sats, ∀ m ∈ g.2,
      m ∈ sats ∧ m.regdoc = some g.1 := by
    intro g hg m hm
    have hge := (regDocData_entry sats g hg).1
    rw [hge] at hm
    have h2 := List.mem_filter.mp hm
    exact ⟨h2.1, by simpa using h2.2⟩
  refine ⟨?_, ?_, ?_, ?_⟩
  · rw [populate_registration_nodes, List.length_map]
    have hlen : (regDocData sats).length = (keysOf (regDocData sats)).length := by
      rw [keysOf, List.length_map]
    rw [hlen]
    apply List.Perm.length_eq
    apply (List.perm_ext_iff_of_nodup hgrp_nodup (List.nodup_dedup _)).mpr
    intro a
    rw [List.mem_dedup, List.mem_filterMap, mem_keysOf_regDocData]
  · intro n hn
    rcases List.mem_map.mp hn with ⟨g, hg, rfl⟩
    have hge := (regDocData_entry sats g hg).1
    have hsorted : ((collectCountries g.2).mergeSort (fun a b => decide (a ≤ b))).Pairwise
        (fun a b => (decide (a ≤ b)) = true) := by
      apply List.sorted_mergeSort
      · intro a b c hab hbc
        simp only [decide_eq_true_eq] at hab hbc ⊢
        exact le_trans hab hbc
      · intro a b
        rcases le_total a b with h | h <;> simp [h]
    have hperm : ((collectCountries g.2).mergeSort (fun a b => decide (a ≤ b))).Perm
        (collectCountries g.2) := List.mergeSort_perm _ _
    refine ⟨rfl, by rw [hge], ?_, ?_, ?_⟩
    · exact List.Pairwise.imp (fun hab => by simpa using hab) hsorted
    · exact hperm.symm.nodup (nodup_collectCountries g.2)
    · intro ctry
      rw [hperm.mem_iff, mem_collectCountries]
      constructor
      · rintro ⟨s, hs, hsc⟩
        obtain ⟨h1, h2⟩ := hmember g hg s hs
        exact ⟨s, h1, h2, hsc⟩
      · rintro ⟨s, hs, hsd, hsc⟩
        refine ⟨s, ?_, hsc⟩
        rw [hge]
        exact List.mem_filter.mpr ⟨hs, by simp [hsd]⟩
  · intro url
    constructor
    · intro hex
      have hk := (mem_keysOf_regDocData sats url).mpr hex
      rcases List.mem_map.mp hk with ⟨g, hg, hgu⟩
      exact ⟨{ key := registration_doc_key g.1, url := g.1,
               satellite_count := g.2.length,
               countries := (collectCountries g.2).mergeSort (fun a b => decide (a ≤ b)) },
        List.mem_map_of_mem _ hg, hgu⟩
    · rintro ⟨n, hn, hnu⟩
      rcases List.mem_map.mp hn with ⟨g, hg, rfl⟩
      obtain ⟨hge, hne⟩ := regDocData_entry sats g hg
      obtain ⟨m, hm⟩ := List.exists_mem_of_ne_nil _ hne
      obtain ⟨h1, h2⟩ := hmember g hg m hm
      exact ⟨m, h1, by rw [h2, ← hnu]⟩
  · intro s hs url hurl
    have hsF : s ∈ regSatsWithDoc sats :=
      List.mem_filter.mpr ⟨hs, by simp [hurl]⟩
    have hsk : regKeyOf s = url := by rw [regKeyOf, hurl]; rfl
    have hkurl : url ∈ keysOf (regDocData sats) :=
      (mem_keysOf_regDocData sats url).mpr ⟨s, hs, hurl⟩
    rcases List.mem_map.mp hkurl with ⟨g0, hg0, hg0u⟩
    obtain ⟨hge0, _⟩ := regDocData_entry sats g0 hg0
    have hsg0 : s ∈ g0.2 := by
      rw [hge0]
      exact List.mem_filter.mpr ⟨hs, by simp [hurl, hg0u]⟩
    have hg0nodup : (g0.2.map RSat.key).Nodup := by
      have hsub : g0.2.Sublist sats := by
        rw [hge0]
        exact List.filter_sublist sats
      exact hkeys.sublist (hsub.map RSat.key)
    have hzero_other : ∀ g, g ∈ regDocData sats → g.1 ≠ url →
        (g.2.map (fun m =>
          { fromId := "satellites/" ++ m.key
          , toId := "registration_documents/" ++ registration_doc_key g.1
          , registration_document := g.1 : RegEdge })).countP
          (fun e => e.fromId = "satellites/" ++ s.key) = 0 := by
      intro g hg hgu
      rw [List.countP_eq_zero]
      intro e he hp
      rcases List.mem_map.mp he with ⟨m, hm, rfl⟩
      simp only [decide_eq_true_eq] at hp
      have hmk : m.key = s.key := string_append_cancel hp
      obtain ⟨hm1, hm2⟩ := hmember g hg m hm
      have : m = s := List.inj_on_of_nodup_map hkeys hm1 hs hmk
      rw [this, hurl] at hm2
      exact hgu (Option.some.inj hm2.symm)
    constructor
    · rw [populate_registration_edges, countP_flatMap]
      apply sum_map_eq_one_of_unique _ _ Prod.fst url hgrp_nodup g0 hg0 hg0u
      · show (g0.2.map _).countP _ = 1
        rw [List.countP_map]
        have hcongr : ∀ m ∈ g0.2,
            (decide ("satellites/" ++ m.key = "satellites/" ++ s.key))
              = (decide (m.key = s.key)) := by
          intro m _
          by_cases h : m.key = s.key
          · simp [h]
          · simp [h]
            exact fun hc => h (string_append_cancel hc)
        rw [List.countP_congr (fun m hm => by rw [show ((fun e : RegEdge =>
            decide (e.fromId = "satellites/" ++ s.key)) ∘ (fun m : RSat =>
            ({ fromId := "satellites/" ++ m.key
             , toId := "registration_documents/" ++ registration_doc_key g0.1
             , registration_document := g0.1 : RegEdge }))) m
            = decide (m.key = s.key) from by
              simp only [Function.comp]
              exact hcongr m hm])]
        exact countP_keyEq_one RSat.key g0.2 s hg0nodup hsg0
      · intro g hg hgu
        exact hzero_other g hg hgu
    · intro e he hef
      rcases List.mem_flatMap.mp he with ⟨g, hg, hge⟩
      by_cases hgu : g.1 = url
      · rcases List.mem_map.mp hge with ⟨m, _, rfl⟩
        exact ⟨by rw [hgu], hgu⟩
      · exfalso
        have h0 := hzero_other g hg hgu
        rw [List.countP_eq_zero] at h0
        exact h0 e hge (by simpa using hef)

/-- Witness for C7 at two satellites sharing one reference and a third
without one. -/
theorem registration_network_spec_witness :
    (populate_registration_nodes
        [⟨"k1", "A", some "doc/1", some "France"⟩,
         ⟨"k2", "B", some "doc/1", none⟩,
         ⟨"k3", "C", none, some "USA"⟩]).length
      = (([⟨"k1", "A", some "doc/1", some "France"⟩,
          ⟨"k2", "B", some "doc/1", none⟩,
          ⟨"k3", "C", none, some "USA"⟩] : List RSat).filterMap RSat.regdoc).dedup.length := by
  have h := registration_network_spec
    [⟨"k1", "A", some "doc/1", some "France"⟩,
     ⟨"k2", "B", some "doc/1", none⟩,
     ⟨"k3", "C", none, some "USA"⟩]
    (by decide)
  exact h.1

/-! ### Graph read endpoints (`api.py`) -/

/-- A stored constellation edge as the API reads it. -/
structure ApiConstEdge where
  fromId : String
  toId : String
  constellation_name : String
deriving DecidableEq, Repr

/-- A stored proximity edge as the API reads it. -/
structure ApiProxEdge where
  fromId : String
  toId : String
  orbital_band : String
deriving DecidableEq, Repr

structure ConstGraphStats where
  total_satellites : Nat
  members : Nat
  has_hub : Bool
deriving DecidableEq, Repr

/-- The `data` object of `/v2/graphs/constellation/{name}`; node payloads are
represented by their document ids. -/
structure ConstGraphData where
  constellation : String
  hub : Option String
  nodes : List String
  edges : List (String × String)
  stats : ConstGraphStats
deriving DecidableEq, Repr

/-- An HTTP 200 JSON response: a data payload and an optional message.  The
endpoints below never raise an error status. -/
structure ApiResponse (α : Type) where
  data : α
  message : Option String
deriving DecidableEq, Repr

/-- `get_constellation_graph` (api.py lines 643-744): find the hub from the
first matching constellation edge, collect inbound members, and fall back to
the explicit empty shape with a message when no nodes were found. -/
def get_constellation_graph (edges : List ApiConstEdge) (name : String) :
    ApiResponse ConstGraphData :=
  let hub := ((edges.filter (fun e => e.constellation_name = name)).head?).map
    (fun e => e.toId)
  let members := match hub with
    | none => []
    | some h => (edges.filter (fun e => e.toId = h ∧ e.constellation_name = name)).map
        (fun e => e.fromId)
  let nodes := match hub with
    | none => members
    | some h => members ++ [h]
  let outEdges := match hub with
    | none => []
    | some h => members.map (fun m => (m, h))
  if nodes.isEmpty then
    { data := { constellation := name, hub := none, nodes := [], edges := []
              , stats := { total_satellites := 0, members := 0, has_hub := false } }
    , message := some ("No satellites found for constellation '" ++ name ++ "'") }
  else
    { data := { constellation := name, hub := hub, nodes := nodes, edges := outEdges
              , stats := { total_satellites := nodes.length, members := members.length
                         , has_hub := hub.isSome } }
    , message := none }

structure RegGraphStats where
  total_nodes : Nat
  satellites : Nat
  has_document : Bool
deriving DecidableEq, Repr

/-- The `data` object of `/v2/graphs/registration-document/{doc_key}`. -/
structure RegGraphData where
  registration_document : Option String
  nodes : List String
  edges : List (String × String)
  stats : RegGraphStats
deriving DecidableEq, Repr

/-- `get_registration_document_graph` (api.py lines 747-837): look the
document node up by key, collect inbound satellites, and fall back to the
explicit empty shape with a message when the document does not exist. -/
def get_registration_document_graph (docs : List RegDocNode)
    (redges : List (String × String)) (doc_key : String) :
    ApiResponse RegGraphData :=
  let doc_id := "registration_documents/" ++ doc_key
  let reg_doc := docs.find? (fun d => d.key = doc_key)
  match reg_doc with
  | none =>
    { data := { registration_document := none, nodes := [], edges := []
              , stats := { total_nodes := 0, satellites := 0, has_document := false } }
    , message := some ("Registration document not found: " ++ doc_key) }
  | some _ =>
    let satellites := (redges.filter (fun e => e.2 = doc_id)).map (fun e => e.1)
    { data := { registration_document := some doc_id
              , nodes := satellites ++ [doc_id]
              , edges := satellites.map (fun s => (s, doc_id))
              , stats := { total_nodes := satellites.length + 1
                         , satellites := satellites.length, has_document := true } }
    , message := none }

structure ProxGraphStats where
  total_satellites : Nat
  total_proximity_edges : Nat
  edges_shown : Nat
deriving DecidableEq, Repr

/-- The `data` object of `/v2/graphs/orbital-proximity/{band}`. -/
structure ProxGraphData where
  orbital_band : String
  nodes : List String
  edges : List (String × String)
  stats : ProxGraphStats
deriving DecidableEq, Repr

/-- `get_orbital_proximity_graph` (api.py lines 933-1029): take up to `limit`
edges of the band, derive the distinct endpoint satellites, and fall back to
the explicit empty shape with a message when no nodes were found. -/
def get_orbital_proximity_graph (pedges : List ApiProxEdge) (band : String)
    (limit : Nat) : ApiResponse ProxGraphData :=
  let shown := (pedges.filter (fun e => e.orbital_band = band)).take limit
  let ids := (shown.flatMap (fun e => [e.fromId, e.toId])).dedup
  let outEdges := shown.map (fun e => (e.fromId, e.toId))
  let total := (pedges.filter (fun e => e.orbital_band = band)).length
  if ids.isEmpty then
    { data := { orbital_band := band, nodes := [], edges := []
              , stats := { total_satellites := 0, total_proximity_edges := 0
                         , edges_shown := 0 } }
    , message := some ("No proximity data found for orbital band '" ++ band ++ "'") }
  else
    { data := { orbital_band := band, nodes := ids, edges := outEdges
              , stats := { total_satellites := ids.length
                         , total_proximity_edges := total
                         , edges_shown := outEdges.length } }
    , message := none }

/-- C9: each graph read endpoint, queried with a name/key/band for which no
data exists, returns the explicit empty-result shape — empty nodes and edges
and all-zero stats — together with a descriptive message, as an ordinary
(non-error) response. -/
theorem read_endpoints_empty_result
    (cedges : List ApiConstEdge) (cname : String)
    (docs : List RegDocNode) (redges : List (String × String)) (dkey : String)
    (pedges : List ApiProxEdge) (band : String) (limit : Nat)
    (hc : ∀ e ∈ cedges, e.constellation_name ≠ cname)
    (hd : ∀ d ∈ docs, d.key ≠ dkey)
    (hp : ∀ e ∈ pedges, e.orbital_band ≠ band) :
    get_constellation_graph cedges cname
      = { data := { constellation := cname, hub := none, nodes := [], edges := []
                  , stats := { total_satellites := 0, members := 0, has_hub := false } }
        , message := some ("No satellites found for constellation '" ++ cname ++ "'") }
    ∧ get_registration_document_graph docs redges dkey
      = { data := { registration_document := none, nodes := [], edges := []
                  , stats := { total_nodes := 0, satellites := 0, has_document := false } }
        , message := some ("Registration document not found: " ++ dkey) }
    ∧ get_orbital_proximity_graph pedges band limit
      = { data := { orbital_band := band, nodes := [], edges := []
                  , stats := { total_satellites := 0, total_proximity_edges := 0
                             , edges_shown := 0 } }
        , message := some ("No proximity data found for orbital band '" ++ band ++ "'") } := by
  refine ⟨?_, ?_, ?_⟩
  · have hfil : cedges.filter (fun e => e.constellation_name = cname) = [] := by
      rw [List.filter_eq_nil_iff]
      intro e he
      simpa using hc e he
    rw [get_constellation_graph]
    simp only [hfil, List.head?_nil, Option.map_none']
    rfl
  · have hfind : docs.find? (fun d => d.key = dkey) = none := by
      rw [List.find?_eq_none]
      intro d hdm
      simpa using hd d hdm
    rw [get_registration_document_graph]
    simp only [hfind]
  · have hfil : pedges.filter (fun e => e.orbital_band = band) = [] := by
      rw [List.filter_eq_nil_iff]
      intro e he
      simpa using hp e he
    rw [get_orbital_proximity_graph]
    simp only [hfil, List.take_nil, List.flatMap_nil, List.dedup_nil, List.length_nil]
    rfl

/-- Witness for C9 on empty stores and arbitrary query arguments. -/
theorem read_endpoints_empty_result_witness :
    get_constellation_graph [] "Starlink"
      = { data := { constellation := "Starlink", hub := none, nodes := [], edges := []
                  , stats := { total_satellites := 0, members := 0, has_hub := false } }
        , message := some ("No satellites found for constellation '" ++ "Starlink" ++ "'") }
    ∧ get_registration_document_graph [] [] "doc_1"
      = { data := { registration_document := none, nodes := [], edges := []
                  , stats := { total_nodes := 0, satellites := 0, has_document := false } }
        , message := some ("Registration document not found: " ++ "doc_1") }
    ∧ get_orbital_proximity_graph [] "GEO" 50
      = { data := { orbital_band := "GEO", nodes := [], edges := []
                  , stats := { total_satellites := 0, total_proximity_edges := 0
                             , edges_shown := 0 } }
        , message := some ("No proximity data found for orbital band '" ++ "GEO" ++ "'") } :=
  read_endpoints_empty_result [] "Starlink" [] [] "doc_1" [] "GEO" 50
    (by intro e he; cases he) (by intro d hdm; cases hdm) (by intro e he; cases he)

/-! ### Orbital proximity network (`populate_orbital_proximity.py`)

The builder is modelled for the default run (no band filter, no dry run);
numbers are exact rationals. -/

/-- A satellite row with complete orbital data, as the extraction query
returns it (lines 68-85). -/
structure PSat where
  key : String
  identifier : String
  orbital_band : String
  apogee_km : ℚ
  perigee_km : ℚ
  inclination_degrees : ℚ
deriving DecidableEq, Repr

def apogeeThreshold : ℚ := 50
def perigeeThreshold : ℚ := 50
def inclinationThreshold : ℚ := 5

/-- `MAX_EDGES_PER_SATELLITE = 10`. -/
def maxEdgesPerSatellite : Nat := 10

/-- `calculate_proximity_score` (lines 22-37). -/
def calculate_proximity_score (s1 s2 : PSat) : ℚ :=
  (|s1.apogee_km - s2.apogee_km| / apogeeThreshold) ^ 2
    + (|s1.perigee_km - s2.perigee_km| / perigeeThreshold) ^ 2
    + (|s1.inclination_degrees - s2.inclination_degrees| / inclinationThreshold) ^ 2

/-- The candidate test of lines 125-127. -/
def withinThresholds (s1 s2 : PSat) : Bool :=
  decide (|s1.apogee_km - s2.apogee_km| ≤ apogeeThreshold)
    && decide (|s1.perigee_km - s2.perigee_km| ≤ perigeeThreshold)
    && decide (|s1.inclination_degrees - s2.inclination_degrees| ≤ inclinationThreshold)

/-- One entry of a satellite's candidate list (lines 131-145). -/
structure Cand where
  target : String
  score : ℚ
  apogee_diff : ℚ
  perigee_diff : ℚ
  inclination_diff : ℚ
deriving DecidableEq, Repr

/-- The candidate record appended under `s.key` for the pair `(s, other)`. -/
def mkCand (s other : PSat) : Cand :=
  { target := other.key
  , score := calculate_proximity_score s other
  , apogee_diff := |s.apogee_km - other.apogee_km|
  , perigee_diff := |s.perigee_km - other.perigee_km|
  , inclination_diff := |s.inclination_degrees - other.inclination_degrees| }

/-- Processing one ordered pair (lines 120-145): within thresholds, append a
candidate to both endpoints' lists. -/
def pairStep (d : List (String × List Cand)) (s1 s2 : PSat) :
    List (String × List Cand) :=
  if withinThresholds s1 s2 then
    addToGroup (addToGroup d s1.key (mkCand s1 s2)) s2.key (mkCand s2 s1)
  else d

/-- The double loop `for i, sat1 ...: for sat2 in band_satellites[i+1:]`. -/
def buildPairs (d : List (String × List Cand)) : List PSat →
    List (String × List Cand)
  | [] => d
  | s :: rest => buildPairs (rest.foldl (fun d' s2 => pairStep d' s s2) d) rest

/-- Banker's rounding of a rational to the nearest integer (ties to even). -/
def pyRoundInt (x : ℚ) : ℤ :=
  if x - ⌊x⌋ < 1/2 then ⌊x⌋
  else if 1/2 < x - ⌊x⌋ then ⌊x⌋ + 1
  else if ⌊x⌋ % 2 = 0 then ⌊x⌋ else ⌊x⌋ + 1

/-- Python `round(q, n)`: banker's rounding at the n-th decimal. -/
def pyRoundTo (n : Nat) (q : ℚ) : ℚ :=
  ((pyRoundInt (q * (10 ^ n : ℚ))) : ℚ) / (10 ^ n : ℚ)

/-- A persisted proximity edge (lines 151-160). -/
structure ProxEdge where
  fromId : String
  toId : String
  orbital_band : String
  proximity_score : ℚ
  apogee_diff_km : ℚ
  perigee_diff_km : ℚ
  inclination_diff_degrees : ℚ
deriving DecidableEq, Repr

/-- The ordering key `edges.sort(key=lambda x: x['score'])`. -/
def candLe (a b : Cand) : Bool := decide (a.score ≤ b.score)

/-- Per-band emission (lines 147-161): for every satellite's candidate list,
sort ascending by score, keep the first 10, and persist each with rounded
score and differences. -/
def emitBand (band : String) (d : List (String × List Cand)) : List ProxEdge :=
  d.flatMap (fun g =>
    ((g.2.mergeSort candLe).take maxEdgesPerSatellite).map (fun e =>
      { fromId := "satellites/" ++ g.1
      , toId := "satellites/" ++ e.target
      , orbital_band := band
      , proximity_score := pyRoundTo 4 e.score
      , apogee_diff_km := pyRoundTo 2 e.apogee_diff
      , perigee_diff_km := pyRoundTo 2 e.perigee_diff
      , inclination_diff_degrees := pyRoundTo 2 e.inclination_diff }))

/-- The AQL `SORT doc.identifier ASC` of the extraction query. -/
def psatLe (a b : PSat) : Bool := decide (a.identifier ≤ b.identifier)

/-- `populate_orbital_proximity` (lines 39-228): sort, partition by band,
build within-band candidate lists and emit the capped edge lists. -/
def populate_orbital_proximity (sats : List PSat) : List ProxEdge :=
  (groupByKey (fun s => s.orbital_band) (sats.mergeSort psatLe)).flatMap
    (fun g => emitBand g.1 (buildPairs [] g.2))

/-- Candidate-list soundness: an entry under key `k` records an in-threshold
pair of band members whose first component has key `k`. -/
def goodCand (bsats : List PSat) (k : String) (e : Cand) : Prop :=
  ∃ s1 s2, s1 ∈ bsats ∧ s2 ∈ bsats ∧ s1.key = k
    ∧ withinThresholds s1 s2 = true ∧ e = mkCand s1 s2

theorem withinThresholds_symm (s1 s2 : PSat) :
    withinThresholds s1 s2 = withinThresholds s2 s1 := by
  unfold withinThresholds
  rw [abs_sub_comm s1.apogee_km, abs_sub_comm s1.perigee_km,
    abs_sub_comm s1.inclination_degrees]

/-- The combined invariant of the per-band candidate dictionary. -/
def dictOK (bsats : List PSat) (d : List (String × List Cand)) : Prop :=
  (keysOf d).Nodup
  ∧ (∀ k ∈ keysOf d, ∃ s ∈ bsats, s.key = k)
  ∧ (∀ p ∈ d, ∀ e ∈ p.2, goodCand bsats p.1 e)

theorem addToGroup_entries {α : Type} (P : String → α → Prop) :
    ∀ (gs : List (String × List α)) (k : String) (x : α),
      (∀ p ∈ gs, ∀ e ∈ p.2, P p.1 e) → P k x →
      ∀ p ∈ addToGroup gs k x, ∀ e ∈ p.2, P p.1 e := by
  intro gs
  induction gs with
  | nil =>
    intro k x _ hx p hp e he
    simp only [addToGroup, List.mem_singleton] at hp
    subst hp
    simp only [List.mem_singleton] at he
    subst he
    exact hx
  | cons q rest ih =>
    obtain ⟨k1, ys⟩ := q
    intro k x hgs hx p hp e he
    by_cases hk : k1 = k
    · subst hk
      simp only [addToGroup, if_pos rfl] at hp
      rcases List.mem_cons.mp hp with rfl | hpr
      · rcases List.mem_append.mp he with h | h
        · exact hgs (k1, ys) (List.mem_cons_self _ _) e h
        · rw [List.mem_singleton.mp h]
          exact hx
      · exact hgs p (List.mem_cons_of_mem _ hpr) e he
    · simp only [addToGroup, if_neg hk] at hp
      rcases List.mem_cons.mp hp with rfl | hpr
      · exact hgs (k1, ys) (List.mem_cons_self _ _) e he
      · exact ih k x (fun p hp => hgs p (List.mem_cons_of_mem _ hp)) hx p hpr e he

theorem dictOK_addToGroup {bsats : List PSat} {d : List (String × List Cand)}
    {k : String} {x : Cand} (h : dictOK bsats d)
    (hk : ∃ s ∈ bsats, s.key = k) (hx : goodCand bsats k x) :
    dictOK bsats (addToGroup d k x) := by
  obtain ⟨h1, h2, h3⟩ := h
  refine ⟨nodup_keysOf_addToGroup k x h1, ?_, ?_⟩
  · intro k' hk'
    rw [keysOf_addToGroup] at hk'
    by_cases hmem : k ∈ keysOf d
    · rw [if_pos hmem] at hk'
      exact h2 k' hk'
    · rw [if_neg hmem] at hk'
      rcases List.mem_append.mp hk' with h | h
      · exact h2 k' h
      · rw [List.mem_singleton.mp h]
        exact hk
  · exact addToGroup_entries (goodCand bsats) d k x h3 hx

theorem dictOK_pairStep {bsats : List PSat} {d : List (String × List Cand)}
    {s1 s2 : PSat} (h : dictOK bsats d) (hs1 : s1 ∈ bsats) (hs2 : s2 ∈ bsats) :
    dictOK bsats (pairStep d s1 s2) := by
  unfold pairStep
  by_cases hw : withinThresholds s1 s2
  · rw [if_pos hw]
    apply dictOK_addToGroup
    · apply dictOK_addToGroup h ⟨s1, hs1, rfl⟩
      exact ⟨s1, s2, hs1, hs2, rfl, hw, rfl⟩
    · exact ⟨s2, hs2, rfl⟩
    · exact ⟨s2, s1, hs2, hs1, rfl, by rw [withinThresholds_symm]; exact hw, rfl⟩
  · rw [if_neg hw]
    exact h

theorem foldl_invariant {α β : Type} (Q : β → Prop) (f : β → α → β) (l : List α)
    (hstep : ∀ b, ∀ a ∈ l, Q b → Q (f b a)) :
    ∀ b, Q b → Q (l.foldl f b) := by
  induction l with
  | nil => exact fun b h => h
  | cons a rest ih =>
    intro b hb
    rw [List.foldl_cons]
    exact ih (fun b' a' ha' => hstep b' a' (List.mem_cons_of_mem _ ha'))
      _ (hstep b a (List.mem_cons_self _ _) hb)

theorem dictOK_buildPairs (bsats : List PSat) :
    ∀ (l : List PSat) (d : List (String × List Cand)),
      (∀ x ∈ l, x ∈ bsats) → dictOK bsats d → dictOK bsats (buildPairs d l) := by
  intro l
  induction l with
  | nil => exact fun d _ h => h
  | cons s rest ih =>
    intro d hl hd
    show dictOK bsats (buildPairs (rest.foldl (fun d' s2 => pairStep d' s s2) d) rest)
    apply ih _ (fun x hx => hl x (List.mem_cons_of_mem _ hx))
    exact foldl_invariant (dictOK bsats) _ rest
      (fun b a ha hb => dictOK_pairStep hb (hl s (List.mem_cons_self _ _))
        (hl a (List.mem_cons_of_mem _ ha)))
      d hd

theorem dictOK_nil (bsats : List PSat) : dictOK bsats [] := by
  refine ⟨List.nodup_nil, ?_, ?_⟩
  · intro k hk
    simp [keysOf] at hk
  · intro p hp
    simp at hp

theorem mem_emitBand {band : String} {d : List (String × List Cand)} {e : ProxEdge}
    (he : e ∈ emitBand band d) :
    ∃ k es cand, (k, es) ∈ d ∧ cand ∈ es
      ∧ e = { fromId := "satellites/" ++ k
            , toId := "satellites/" ++ cand.target
            , orbital_band := band
            , proximity_score := pyRoundTo 4 cand.score
            , apogee_diff_km := pyRoundTo 2 cand.apogee_diff
            , perigee_diff_km := pyRoundTo 2 cand.perigee_diff
            , inclination_diff_degrees := pyRoundTo 2 cand.inclination_diff } := by
  rcases List.mem_flatMap.mp he with ⟨g, hg, hge⟩
  rcases List.mem_map.mp hge with ⟨cand, hcand, rfl⟩
  have hc2 : cand ∈ g.2.mergeSort candLe := List.take_subset _ _ hcand
  have hc3 : cand ∈ g.2 := (List.mergeSort_perm g.2 candLe).mem_iff.mp hc2
  exact ⟨g.1, g.2, cand, hg, hc3, rfl⟩

/-- Soundness of every emitted proximity edge with respect to the in-band
satellites it came from. -/
theorem mem_populate_orbital_proximity {sats : List PSat} {e : ProxEdge}
    (he : e ∈ populate_orbital_proximity sats) :
    ∃ s1 s2, s1 ∈ sats ∧ s2 ∈ sats
      ∧ e.fromId = "satellites/" ++ s1.key ∧ e.toId = "satellites/" ++ s2.key
      ∧ s1.orbital_band = s2.orbital_band ∧ e.orbital_band = s1.orbital_band
      ∧ |s1.apogee_km - s2.apogee_km| ≤ apogeeThreshold
      ∧ |s1.perigee_km - s2.perigee_km| ≤ perigeeThreshold
      ∧ |s1.inclination_degrees - s2.inclination_degrees| ≤ inclinationThreshold
      ∧ e.proximity_score = pyRoundTo 4 (calculate_proximity_score s1 s2)
      ∧ e.apogee_diff_km = pyRoundTo 2 |s1.apogee_km - s2.apogee_km|
      ∧ e.perigee_diff_km = pyRoundTo 2 |s1.perigee_km - s2.perigee_km|
      ∧ e.inclination_diff_degrees
          = pyRoundTo 2 |s1.inclination_degrees - s2.inclination_degrees| := by
  have hperm : (sats.mergeSort psatLe).Perm sats := List.mergeSort_perm sats psatLe
  rcases List.mem_flatMap.mp he with ⟨g, hg, hge⟩
  have hmembers : ∀ m ∈ g.2, m ∈ sats ∧ m.orbital_band = g.1 := by
    intro m hm
    have hge2 := mem_groupByKey_eq
      (show (g.1, g.2) ∈ groupByKey (fun s => s.orbital_band) (sats.mergeSort psatLe) from hg)
    rw [hge2.1] at hm
    have h2 := List.mem_filter.mp hm
    exact ⟨hperm.mem_iff.mp h2.1, by simpa using h2.2⟩
  have hdict : dictOK g.2 (buildPairs [] g.2) :=
    dictOK_buildPairs g.2 g.2 [] (fun x hx => hx) (dictOK_nil g.2)
  rcases mem_emitBand hge with ⟨k, es, cand, hkd, hcand, rfl⟩
  rcases hdict.2.2 (k, es) hkd cand hcand with ⟨s1, s2, hs1, hs2, hk1, hw, hcand_eq⟩
  obtain ⟨hm1, hb1⟩ := hmembers s1 hs1
  obtain ⟨hm2, hb2⟩ := hmembers s2 hs2
  have hwt : |s1.apogee_km - s2.apogee_km| ≤ apogeeThreshold
      ∧ |s1.perigee_km - s2.perigee_km| ≤ perigeeThreshold
      ∧ |s1.inclination_degrees - s2.inclination_degrees| ≤ inclinationThreshold := by
    unfold withinThresholds at hw
    simp only [Bool.and_eq_true, decide_eq_true_eq] at hw
    exact ⟨hw.1.1, hw.1.2, hw.2⟩
  refine ⟨s1, s2, hm1, hm2, by rw [hk1], ?_, hb1.trans hb2.symm, by simp [hb1], hwt.1,
    hwt.2.1, hwt.2.2, ?_, ?_, ?_, ?_⟩
  · rw [hcand_eq]
    rfl
  · rw [hcand_eq]
    rfl
  · rw [hcand_eq]
    rfl
  · rw [hcand_eq]
    rfl
  · rw [hcand_eq]
    rfl

/-- Rewriting `pyRoundTo` when the scaled value is exactly an integer. -/
theorem pyRoundInt_intCast (z : ℤ) : pyRoundInt (z : ℚ) = z := by
  have h0 : (z : ℚ) - ((⌊(z : ℚ)⌋ : ℤ) : ℚ) < 1/2 := by
    rw [Int.floor_intCast]
    norm_num
  unfold pyRoundInt
  rw [if_pos h0, Int.floor_intCast]

theorem pyRoundTo_of_int {n : Nat} {q : ℚ} {z : ℤ} (h : q * (10 ^ n : ℚ) = (z : ℚ)) :
    pyRoundTo n q = (z : ℚ) / (10 ^ n : ℚ) := by
  unfold pyRoundTo
  rw [h, pyRoundInt_intCast]

/-- `|1/2| = 1/2` over the rationals. -/
theorem abs_half : |(1:ℚ)/2| = 1/2 := abs_of_nonneg (by norm_num)

/-- `|1/10| = 1/10` over the rationals. -/
theorem abs_tenth : |(1:ℚ)/10| = 1/10 := abs_of_nonneg (by norm_num)

/-- The demonstration satellites of the spec's concrete scenario: band
"LEO-Polar", apogee 500/520, perigee 480/490, inclination 97.0/97.5.  (The
identifiers are chosen equal so the sort step is a no-op.) -/
def demoA : PSat := ⟨"a1", "A", "LEO-Polar", 500, 480, 97⟩

def demoB : PSat := ⟨"b1", "A", "LEO-Polar", 520, 490, 195/2⟩

theorem demo_within : withinThresholds demoA demoB = true := by
  simp only [withinThresholds, demoA, demoB, apogeeThreshold, perigeeThreshold,
    inclinationThreshold, Bool.and_eq_true, decide_eq_true_eq]
  norm_num [abs_half]

theorem demo_score : calculate_proximity_score demoA demoB = 21/100 := by
  simp only [calculate_proximity_score, demoA, demoB, apogeeThreshold,
    perigeeThreshold, inclinationThreshold]
  norm_num [abs_half]

theorem demo_cand1 : mkCand demoA demoB
    = { target := "b1", score := 21/100, apogee_diff := 20, perigee_diff := 10
      , inclination_diff := 1/2 } := by
  rw [mkCand, demo_score]
  simp only [demoA, demoB, Cand.mk.injEq]
  norm_num [abs_half]

theorem demo_cand2 : mkCand demoB demoA
    = { target := "a1", score := 21/100, apogee_diff := 20, perigee_diff := 10
      , inclination_diff := 1/2 } := by
  have hs : calculate_proximity_score demoB demoA = 21/100 := by
    simp only [calculate_proximity_score, demoA, demoB, apogeeThreshold,
      perigeeThreshold, inclinationThreshold]
    norm_num [abs_half]
  rw [mkCand, hs]
  simp only [demoA, demoB, Cand.mk.injEq]
  norm_num [abs_half]

theorem mergeSort_single (c : Cand) : [c].mergeSort candLe = [c] :=
  List.mergeSort_of_sorted (by simp)

theorem demo_round_score : pyRoundTo 4 ((21:ℚ)/100) = 21/100 := by
  rw [pyRoundTo_of_int (show (21:ℚ)/100 * 10 ^ 4 = ((2100 : ℤ) : ℚ) by norm_num)]
  norm_num

theorem demo_round20 : pyRoundTo 2 (20:ℚ) = 20 := by
  rw [pyRoundTo_of_int (show (20:ℚ) * 10 ^ 2 = ((2000 : ℤ) : ℚ) by norm_num)]
  norm_num

theorem demo_round10 : pyRoundTo 2 (10:ℚ) = 10 := by
  rw [pyRoundTo_of_int (show (10:ℚ) * 10 ^ 2 = ((1000 : ℤ) : ℚ) by norm_num)]
  norm_num

theorem demo_round_half : pyRoundTo 2 ((1:ℚ)/2) = 1/2 := by
  rw [pyRoundTo_of_int (show (1:ℚ)/2 * 10 ^ 2 = ((50 : ℤ) : ℚ) by norm_num)]
  norm_num

/-- Full evaluation of the builder on a two-satellite, single-band input. -/
theorem populate_two (sA sB : PSat)
    (hid : sA.identifier ≤ sB.identifier)
    (hband : sA.orbital_band = sB.orbital_band)
    (hw : withinThresholds sA sB = true)
    (hkeys : ¬ (sA.key = sB.key)) :
    populate_orbital_proximity [sA, sB]
      = [ { fromId := "satellites/" ++ sA.key, toId := "satellites/" ++ (mkCand sA sB).target
          , orbital_band := sA.orbital_band
          , proximity_score := pyRoundTo 4 (mkCand sA sB).score
          , apogee_diff_km := pyRoundTo 2 (mkCand sA sB).apogee_diff
          , perigee_diff_km := pyRoundTo 2 (mkCand sA sB).perigee_diff
          , inclination_diff_degrees := pyRoundTo 2 (mkCand sA sB).inclination_diff }
        , { fromId := "satellites/" ++ sB.key, toId := "satellites/" ++ (mkCand sB sA).target
          , orbital_band := sA.orbital_band
          , proximity_score := pyRoundTo 4 (mkCand sB sA).score
          , apogee_diff_km := pyRoundTo 2 (mkCand sB sA).apogee_diff
          , perigee_diff_km := pyRoundTo 2 (mkCand sB sA).perigee_diff
          , inclination_diff_degrees := pyRoundTo 2 (mkCand sB sA).inclination_diff } ] := by
  have h1 : ([sA, sB] : List PSat).mergeSort psatLe = [sA, sB] :=
    List.mergeSort_of_sorted (by
      simp only [List.pairwise_cons, List.mem_singleton, List.not_mem_nil]
      exact ⟨fun b hb => by
          subst hb
          simp only [psatLe, decide_eq_true_eq]
          exact hid,
        fun b hb => hb.elim, List.Pairwise.nil⟩)
  have h2 : groupByKey (fun s => s.orbital_band) [sA, sB]
      = [(sA.orbital_band, [sA, sB])] := by
    simp only [groupByKey, List.foldl_cons, List.foldl_nil, addToGroup]
    rw [if_pos hband]
    rfl
  have h3 : buildPairs ([] : List (String × List Cand)) [sA, sB]
      = pairStep [] sA sB := by
    simp only [buildPairs, List.foldl_cons, List.foldl_nil]
  have h5 : pairStep [] sA sB
      = [(sA.key, [mkCand sA sB]), (sB.key, [mkCand sB sA])] := by
    rw [pairStep, hw]
    simp only [if_true, addToGroup]
    rw [if_neg hkeys]
  rw [populate_orbital_proximity, h1, h2, List.flatMap_cons, List.flatMap_nil,
    List.append_nil, h3, h5, emitBand, List.flatMap_cons, List.flatMap_cons,
    List.flatMap_nil, List.append_nil, mergeSort_single, mergeSort_single]
  simp only [maxEdgesPerSatellite, List.take_succ_cons, List.take_nil,
    List.map_cons, List.map_nil, List.singleton_append]

theorem demo_populate : populate_orbital_proximity [demoA, demoB]
    = [ { fromId := "satellites/" ++ "a1", toId := "satellites/" ++ "b1"
        , orbital_band := "LEO-Polar", proximity_score := 21/100
        , apogee_diff_km := 20, perigee_diff_km := 10
        , inclination_diff_degrees := 1/2 }
      , { fromId := "satellites/" ++ "b1", toId := "satellites/" ++ "a1"
        , orbital_band := "LEO-Polar", proximity_score := 21/100
        , apogee_diff_km := 20, perigee_diff_km := 10
        , inclination_diff_degrees := 1/2 } ] := by
  rw [populate_two demoA demoB (le_of_eq rfl) rfl demo_within (by decide),
    demo_cand1, demo_cand2]
  simp only [demo_round_score, demo_round20, demo_round10, demo_round_half]
  rfl

/-- C3 (amended): every emitted proximity edge joins two satellites of the
same orbital band whose apogee, perigee and inclination differences are
within 50 km, 50 km and 5 degrees, and carries as `proximity_score` the value
`(da/50)^2 + (dp/50)^2 + (di/5)^2` rounded to 4 decimal places (and the
differences rounded to 2); on the spec's concrete scenario the two emitted
edges carry score 0.21 exactly. -/
theorem proximity_edges_characterized :
    (∀ (sats : List PSat) (e : ProxEdge), e ∈ populate_orbital_proximity sats →
      ∃ s1 s2, s1 ∈ sats ∧ s2 ∈ sats
        ∧ e.fromId = "satellites/" ++ s1.key ∧ e.toId = "satellites/" ++ s2.key
        ∧ s1.orbital_band = s2.orbital_band ∧ e.orbital_band = s1.orbital_band
        ∧ |s1.apogee_km - s2.apogee_km| ≤ apogeeThreshold
        ∧ |s1.perigee_km - s2.perigee_km| ≤ perigeeThreshold
        ∧ |s1.inclination_degrees - s2.inclination_degrees| ≤ inclinationThreshold
        ∧ e.proximity_score = pyRoundTo 4 (calculate_proximity_score s1 s2))
    ∧ (∃ e ∈ populate_orbital_proximity [demoA, demoB],
        e.fromId = "satellites/" ++ "a1" ∧ e.toId = "satellites/" ++ "b1"
        ∧ e.proximity_score = 21/100) := by
  constructor
  · intro sats e he
    rcases mem_populate_orbital_proximity he with
      ⟨s1, s2, h1, h2, h3, h4, h5, h6, h7, h8, h9, h10, _⟩
    exact ⟨s1, s2, h1, h2, h3, h4, h5, h6, h7, h8, h9, h10⟩
  · refine ⟨{ fromId := "satellites/" ++ "a1", toId := "satellites/" ++ "b1",
               orbital_band := "LEO-Polar", proximity_score := 21/100,
               apogee_diff_km := 20, perigee_diff_km := 10,
               inclination_diff_degrees := 1/2 }, ?_, rfl, rfl, rfl⟩
    rw [demo_populate]
    exact List.mem_cons_self _ _

def demoC : PSat := ⟨"c1", "C", "LEO-Polar", 500, 480, 97⟩

def demoD : PSat := ⟨"d1", "C", "LEO-Polar", 5001/10, 480, 97⟩

theorem demoCD_score : calculate_proximity_score demoC demoD = 1/250000 := by
  simp only [calculate_proximity_score, demoC, demoD, apogeeThreshold,
    perigeeThreshold, inclinationThreshold]
  norm_num [abs_tenth]

theorem demoCD_within : withinThresholds demoC demoD = true := by
  simp only [withinThresholds, demoC, demoD, apogeeThreshold, perigeeThreshold,
    inclinationThreshold, Bool.and_eq_true, decide_eq_true_eq]
  norm_num [abs_tenth]

theorem demoCD_cand : mkCand demoC demoD
    = { target := "d1", score := 1/250000, apogee_diff := 1/10
      , perigee_diff := 0, inclination_diff := 0 } := by
  rw [mkCand, demoCD_score]
  simp only [demoC, demoD, Cand.mk.injEq]
  norm_num [abs_tenth]

theorem demoCD_round_score : pyRoundTo 4 ((1:ℚ)/250000) = 0 := by
  have hfl : ⌊(1:ℚ)/25⌋ = 0 := by norm_num
  rw [pyRoundTo, show (1:ℚ)/250000 * 10 ^ 4 = 1/25 by norm_num]
  rw [pyRoundInt, hfl]
  rw [if_pos (by norm_num)]
  norm_num

theorem demoCD_round_tenth : pyRoundTo 2 ((1:ℚ)/10) = 1/10 := by
  rw [pyRoundTo_of_int (show (1:ℚ)/10 * 10 ^ 2 = ((10 : ℤ) : ℚ) by norm_num)]
  norm_num

theorem demoCD_round_zero : pyRoundTo 2 (0:ℚ) = 0 := by
  rw [pyRoundTo_of_int (show (0:ℚ) * 10 ^ 2 = ((0 : ℤ) : ℚ) by norm_num)]
  norm_num

/-- Counterexample to C3: with apogee values 500 and 500.1 the true score is
1/250000 but the persisted `proximity_score` is that value rounded to 4
decimal places, i.e. 0 — so the stored score does not equal the formula. -/
theorem proximity_score_rounded_counterexample :
    (∃ e ∈ populate_orbital_proximity [demoC, demoD],
      e.fromId = "satellites/" ++ "c1" ∧ e.toId = "satellites/" ++ "d1"
        ∧ e.proximity_score = 0)
    ∧ calculate_proximity_score demoC demoD = 1/250000
    ∧ (0 : ℚ) ≠ 1/250000 := by
  have hmem : ({ fromId := "satellites/" ++ "c1", toId := "satellites/" ++ "d1",
                 orbital_band := "LEO-Polar", proximity_score := (0:ℚ),
                 apogee_diff_km := 1/10, perigee_diff_km := 0,
                 inclination_diff_degrees := (0:ℚ) } : ProxEdge)
      ∈ populate_orbital_proximity [demoC, demoD] := by
    rw [populate_two demoC demoD (le_of_eq rfl) rfl demoCD_within (by decide),
      demoCD_cand]
    simp only [demoC, demoCD_round_score, demoCD_round_tenth, demoCD_round_zero]
    exact List.mem_cons_self _ _
  exact ⟨⟨_, hmem, rfl, rfl, rfl⟩, demoCD_score, by norm_num⟩

/-- C3 witness: on the concrete demonstration input an emitted edge carries
score 0.21. -/
theorem proximity_edges_characterized_witness :
    ∃ e ∈ populate_orbital_proximity [demoA, demoB],
      e.fromId = "satellites/" ++ "a1" ∧ e.toId = "satellites/" ++ "b1"
        ∧ e.proximity_score = 21/100 :=
  proximity_edges_characterized.2

/-- Summing per-element contributions of which at most one is nonzero, each
bounded by `c`. -/
theorem sum_map_le_of_unique_nonzero {β : Type} (l : List β) (f : β → Nat) (c : Nat)
    (hnd : l.Nodup)
    (huniq : ∀ g ∈ l, ∀ g' ∈ l, f g ≠ 0 → f g' ≠ 0 → g = g')
    (hle : ∀ g ∈ l, f g ≤ c) : (l.map f).sum ≤ c := by
  induction l with
  | nil => simp
  | cons g rest ih =>
    simp only [List.nodup_cons] at hnd
    rw [List.map_cons, List.sum_cons]
    by_cases hg : f g = 0
    · rw [hg, Nat.zero_add]
      exact ih hnd.2
        (fun a ha b hb hfa hfb => huniq a (List.mem_cons_of_mem _ ha)
          b (List.mem_cons_of_mem _ hb) hfa hfb)
        (fun a ha => hle a (List.mem_cons_of_mem _ ha))
    · have hrest : (rest.map f).sum = 0 := by
        apply List.sum_eq_zero
        intro x hx
        rcases List.mem_map.mp hx with ⟨a, ha, rfl⟩
        by_contra hfa
        have hga := huniq g (List.mem_cons_self _ _) a (List.mem_cons_of_mem _ ha) hg hfa
        exact hnd.1 (by rw [hga]; exact ha)
      rw [hrest, Nat.add_zero]
      exact hle g (List.mem_cons_self _ _)

/-- In one entry of a band's emission, a nonzero count of edges with `_from`
key `k` forces the entry's key to be `k`. -/
theorem emit_entry_nonzero_key (band k : String) (g : String × List Cand)
    (h : ((((g.2.mergeSort candLe).take maxEdgesPerSatellite).map (fun e =>
        ({ fromId := "satellites/" ++ g.1
         , toId := "satellites/" ++ e.target
         , orbital_band := band
         , proximity_score := pyRoundTo 4 e.score
         , apogee_diff_km := pyRoundTo 2 e.apogee_diff
         , perigee_diff_km := pyRoundTo 2 e.perigee_diff
         , inclination_diff_degrees := pyRoundTo 2 e.inclination_diff } : ProxEdge))).countP
        (fun e => decide (e.fromId = "satellites/" ++ k))) ≠ 0) : g.1 = k := by
  by_contra hne
  apply h
  rw [List.countP_eq_zero]
  intro e he
  rcases List.mem_map.mp he with ⟨cand, hc, rfl⟩
  simp only [decide_eq_true_eq]
  intro habs
  exact hne (string_append_cancel habs)

/-- Per-band fan-out cap: among the edges emitted for one band from a
candidate dictionary with pairwise-distinct keys, at most
`maxEdgesPerSatellite` have a given `_from` endpoint. -/
theorem countP_emitBand_le (band k : String) (d : List (String × List Cand))
    (hnd : (keysOf d).Nodup) :
    (emitBand band d).countP (fun e => decide (e.fromId = "satellites/" ++ k))
      ≤ maxEdgesPerSatellite := by
  rw [emitBand, countP_flatMap]
  apply sum_map_le_of_unique_nonzero _ _ _ (List.Nodup.of_map Prod.fst hnd)
  · intro g hg g' hg' hfg hfg'
    have hk1 : g.1 = k := emit_entry_nonzero_key band k g hfg
    have hk2 : g'.1 = k := emit_entry_nonzero_key band k g' hfg'
    have ha1 := alookup_of_mem_nodup hnd (show (g.1, g.2) ∈ d from hg)
    have ha2 := alookup_of_mem_nodup hnd (show (g'.1, g'.2) ∈ d from hg')
    rw [hk1] at ha1
    rw [hk2] at ha2
    have h22 : g.2 = g'.2 := Option.some.inj (ha1.symm.trans ha2)
    obtain ⟨c1, ms1⟩ := g
    obtain ⟨c2, ms2⟩ := g'
    simp only at hk1 hk2 h22
    rw [hk1, hk2, h22]
  · intro g hg
    refine le_trans (List.countP_le_length _) ?_
    rw [List.length_map]
    exact List.length_take_le _ _

/-- C4: for every satellite key `k`, the number of persisted proximity edges
whose `_from` endpoint is `satellites/k` — exactly the edges selected by that
satellite's own sort-and-take-10 cut — is at most `max_edges_per_node = 10`
(distinct storage keys assumed); edges merely pointing at the satellite are
not counted against its cap. -/
theorem proximity_fanout_cap (sats : List PSat) (k : String)
    (hkeys : (sats.map PSat.key).Nodup) :
    (populate_orbital_proximity sats).countP
      (fun e => decide (e.fromId = "satellites/" ++ k)) ≤ maxEdgesPerSatellite := by
  have hperm : (sats.mergeSort psatLe).Perm sats := List.mergeSort_perm sats psatLe
  have hkeys' : ((sats.mergeSort psatLe).map PSat.key).Nodup :=
    ((hperm.map PSat.key).nodup_iff).mpr hkeys
  have hndg := nodup_keysOf_groupByKey (fun s => s.orbital_band) (sats.mergeSort psatLe)
  rw [populate_orbital_proximity, countP_flatMap]
  apply sum_map_le_of_unique_nonzero _ _ _ (List.Nodup.of_map Prod.fst hndg)
  · intro g hg g' hg' hfg hfg'
    have hmem_key : ∀ h : String × List PSat,
        h ∈ groupByKey (fun s => s.orbital_band) (sats.mergeSort psatLe) →
        (emitBand h.1 (buildPairs [] h.2)).countP
          (fun e => decide (e.fromId = "satellites/" ++ k)) ≠ 0 →
        ∃ s ∈ h.2, s.key = k := by
      intro h hh hcnt
      have hex : ∃ e ∈ emitBand h.1 (buildPairs [] h.2),
          decide (e.fromId = "satellites/" ++ k) = true := by
        by_contra hno
        push_neg at hno
        exact hcnt (List.countP_eq_zero.mpr hno)
      rcases hex with ⟨e, he, hpe⟩
      rcases mem_emitBand he with ⟨k1, es, cand, hkd, _, rfl⟩
      have hfrom : "satellites/" ++ k1 = "satellites/" ++ k := of_decide_eq_true hpe
      have hk1 : k1 = k := string_append_cancel hfrom
      have hdict : dictOK h.2 (buildPairs [] h.2) :=
        dictOK_buildPairs h.2 h.2 [] (fun x hx => hx) (dictOK_nil h.2)
      have hkin : k1 ∈ keysOf (buildPairs [] h.2) :=
        List.mem_map_of_mem Prod.fst hkd
      rcases hdict.2.1 k1 hkin with ⟨s, hs, hsk⟩
      exact ⟨s, hs, hsk.trans hk1⟩
    rcases hmem_key g hg hfg with ⟨s, hs, hsk⟩
    rcases hmem_key g' hg' hfg' with ⟨s', hs', hsk'⟩
    have hgs := mem_groupByKey_eq
      (show (g.1, g.2) ∈ groupByKey (fun s => s.orbital_band) (sats.mergeSort psatLe) from hg)
    have hgs' := mem_groupByKey_eq
      (show (g'.1, g'.2) ∈ groupByKey (fun s => s.orbital_band) (sats.mergeSort psatLe) from hg')
    have hsf : s ∈ (sats.mergeSort psatLe).filter (fun x => x.orbital_band = g.1) :=
      hgs.1 ▸ hs
    have hsf' : s' ∈ (sats.mergeSort psatLe).filter (fun x => x.orbital_band = g'.1) :=
      hgs'.1 ▸ hs'
    have hsmem : s ∈ sats.mergeSort psatLe := (List.mem_filter.mp hsf).1
    have hsmem' : s' ∈ sats.mergeSort psatLe := (List.mem_filter.mp hsf').1
    have hband : s.orbital_band = g.1 := of_decide_eq_true (List.mem_filter.mp hsf).2
    have hband' : s'.orbital_band = g'.1 := of_decide_eq_true (List.mem_filter.mp hsf').2
    have hss' : s = s' :=
      List.inj_on_of_nodup_map hkeys' hsmem hsmem' (hsk.trans hsk'.symm)
    have h11 : g.1 = g'.1 := by rw [← hband, hss', hband']
    have ha1 := alookup_of_mem_nodup hndg
      (show (g.1, g.2) ∈ groupByKey (fun s => s.orbital_band) (sats.mergeSort psatLe) from hg)
    have ha2 := alookup_of_mem_nodup hndg
      (show (g'.1, g'.2) ∈ groupByKey (fun s => s.orbital_band) (sats.mergeSort psatLe) from hg')
    rw [h11] at ha1
    have h22 : g.2 = g'.2 := Option.some.inj (ha1.symm.trans ha2)
    obtain ⟨c1, ms1⟩ := g
    obtain ⟨c2, ms2⟩ := g'
    simp only at h11 h22
    rw [h11, h22]
  · intro g hg
    exact countP_emitBand_le g.1 k (buildPairs [] g.2)
      (dictOK_buildPairs g.2 g.2 [] (fun x hx => hx) (dictOK_nil g.2)).1

/-- C4 witness: the cap theorem applied to the demonstration pair and the
key "a1". -/
theorem proximity_fanout_cap_witness :
    (([demoA, demoB].map PSat.key)).Nodup
    ∧ (populate_orbital_proximity [demoA, demoB]).countP
        (fun e => decide (e.fromId = "satellites/" ++ "a1")) ≤ maxEdgesPerSatellite :=
  ⟨by decide, proximity_fanout_cap [demoA, demoB] "a1" (by decide)⟩

end SatTrack
